import Mathlib

/-!
Verification development for the OptDisPro multi-agent optimization-code
generator.  The Python sources under `src/agents/` are shallowly embedded:
Python strings are `List Char`, Python dictionaries become structures with
`Option` fields (a missing key or a `None` value is `none`), and the only
environment-dependent operations (CPython's `ast.parse`/`ast.unparse`, the
LLM round trips, wall-clock time) are supplied as explicit oracle
parameters.  Machine floats never participate in arithmetic in the code
regions covered here, so they are embedded as a tagged type that only
distinguishes the infinities the code compares against.
-/

namespace OptDisPro

/-- Python strings are embedded as lists of characters. -/
abbrev Str := List Char

/-- Coerce a Lean string literal into the embedding. -/
def S (s : String) : Str := s.data

/-- The characters Python's `str.strip` removes. -/
def isPySpace (c : Char) : Bool :=
  c = ' ' || c = '\t' || c = '\n' || c = '\r' || c = '\x0b' || c = '\x0c'

/-- Python `str.lstrip()`. -/
def pyLstrip (s : Str) : Str := List.dropWhile isPySpace s

/-- Python `str.rstrip()`. -/
def pyRstrip (s : Str) : Str := (List.dropWhile isPySpace (List.reverse s)).reverse

/-- Python `str.strip()`. -/
def pyStrip (s : Str) : Str := pyRstrip (pyLstrip s)

/-- Python `str.lower()` (identity on the CJK characters appearing here). -/
def pyLower (s : Str) : Str := List.map Char.toLower s

/-- `len(line) - len(line.lstrip())`: the indentation width of a line. -/
def indentOf (l : Str) : Nat := l.length - (pyLstrip l).length

/-- A run of spaces, `" " * n`. -/
def spaces (n : Nat) : Str := List.replicate n ' '

/-- Python `s.startswith(p)`. -/
def strStarts (s p : Str) : Bool := List.isPrefixOf p s

/-- Python `s.endswith(p)`. -/
def strEnds (s p : Str) : Bool := List.isSuffixOf p s

/-- Python `s.split('\n')` (always returns at least one piece). -/
def splitNl : Str → List Str
  | [] => [[]]
  | c :: rest =>
    if c = '\n' then [] :: splitNl rest
    else
      match splitNl rest with
      | l :: ls => (c :: l) :: ls
      | [] => [[c]]

/-- Python `'\n'.join(lines)`. -/
def joinLines : List Str → Str
  | [] => []
  | [l] => l
  | l :: ls => l ++ '\n' :: joinLines ls

/-- Python `p in s` (substring containment). -/
def strContains : Str → Str → Bool
  | [], p => List.isPrefixOf p []
  | c :: rest, p => List.isPrefixOf p (c :: rest) || strContains rest p

/-- Fuel-indexed worker for Python `s.replace(p, r)`: scan left to right,
replacing each non-overlapping occurrence of `p` by `r`.  The fuel is only
a termination device; `s.length` steps always suffice. -/
def pyRepF : Nat → Str → Str → Str → Str
  | 0, s, _, _ => s
  | n + 1, s, p, r =>
    match s with
    | [] => []
    | c :: rest =>
      if p ≠ [] ∧ List.isPrefixOf p (c :: rest) then
        r ++ pyRepF n (List.drop p.length (c :: rest)) p r
      else
        c :: pyRepF n rest p r

/-- Python `s.replace(p, r)` (the code never calls it with an empty `p`). -/
def pyRep (s p r : Str) : Str := pyRepF s.length s p r

/-- Fuel-indexed worker for Python `s.count(p)` (non-overlapping count). -/
def countOccF : Nat → Str → Str → Nat
  | 0, _, _ => 0
  | n + 1, s, p =>
    match s with
    | [] => 0
    | c :: rest =>
      if p ≠ [] ∧ List.isPrefixOf p (c :: rest) then
        1 + countOccF n (List.drop p.length (c :: rest)) p
      else
        countOccF n rest p

/-- Python `s.count(p)`. -/
def countOcc (s p : Str) : Nat := countOccF s.length s p

/-- Python `s.split(':', 1)[1]`: everything after the first colon. -/
def afterFirstColon (s : Str) : Str := (List.dropWhile (fun c => ¬ c = ':') s).drop 1

/-- Python `str(n)` for a natural number. -/
def natStr (n : Nat) : Str := (toString n).data

/-- Python `sep.join(xs)`. -/
def joinSep (sep : Str) : List Str → Str
  | [] => []
  | [x] => x
  | x :: xs => x ++ sep ++ joinSep sep xs

/-!
### `src/agents/code_template.py` — the fragment assembler

`ast.parse` / `ast.unparse` are CPython services, so they enter the model
as a `ParseOracle`.  A parsed module is a list of top-level nodes; the
oracle already carries the `ast.unparse` rendering of each node (the model
assumes `has_ast_unparse`, i.e. Python >= 3.9).  `parse = none` models a
`SyntaxError`; `procFault` models any other exception escaping
`_process_snippet` (e.g. `MemoryError`), which the caller catches.
-/

/-- A top-level AST node as `_extract_from_ast` classifies it:
a `def` (carrying `'\n'.join(ast.unparse(stmt) for stmt in node.body)`),
a `class` (carrying `ast.unparse(node)`), or anything else. -/
inductive PyNode where
  | funcDef (bodyCode : Str)
  | classDef (code : Str)
  | other
deriving DecidableEq

/-- The CPython front end used by `_process_snippet`. -/
structure ParseOracle where
  parse : Str → Option (List PyNode)
  procFault : Str → Bool

/-- The `snippets` dictionary passed to `insert_code_snippets_robust`. -/
structure Snippets where
  objective_function : Option Str
  optimization_algorithm : Option Str

/-- Python `snippets.get(point_type)`. -/
def Snippets.get (s : Snippets) (pt : Str) : Option Str :=
  if pt = S "OBJECTIVE_FUNCTION" then s.objective_function
  else if pt = S "OPTIMIZATION_ALGORITHM" then s.optimization_algorithm
  else none

/-- Python truthiness of an optional string (`None` and `""` are falsy). -/
def truthy : Option Str → Bool
  | none => false
  | some s => ¬ s = []

/-- The `'# {{INSERT_OBJECTIVE_FUNCTION}}'` placeholder marker. -/
def ph_objective : Str := S "# \x7b\x7bINSERT_OBJECTIVE_FUNCTION\x7d\x7d"

/-- The `'# {{INSERT_OPTIMIZATION_ALGORITHM}}'` placeholder marker. -/
def ph_algorithm : Str := S "# \x7b\x7bINSERT_OPTIMIZATION_ALGORITHM\x7d\x7d"

/-- Does `point_type` name one of the two method-body insertion points
(the test `point_type in ['OBJECTIVE_FUNCTION', 'OPTIMIZATION_ALGORITHM']`)? -/
def isMethodPoint (pt : Str) : Bool :=
  pt = S "OBJECTIVE_FUNCTION" || pt = S "OPTIMIZATION_ALGORITHM"

/-- Triple double quote and triple single quote, for docstring detection. -/
def dq3 : Str := S "\"\"\""

/-- Triple single quote. -/
def sq3 : Str := S "\x27\x27\x27"

/-- `CodeTemplate._normalize_code`: re-anchor the snippet at indent 0 and
round every relative indent down to a multiple of four, pinning docstring
openers to one level. -/
def normalize_code (code : Str) : Str :=
  if pyStrip code = [] then []
  else
    let lines := splitNl (pyStrip code)
    let base_indent := (lines.find? (fun l => ¬ pyStrip l = [])).elim 0 indentOf
    joinLines (lines.map (fun line =>
      if pyStrip line = [] then []
      else
        let current_indent := indentOf line
        let relative_indent := current_indent - base_indent
        let standard_indent := (relative_indent / 4) * 4
        let stripped := pyStrip line
        let standard_indent :=
          if (strStarts stripped dq3 || strStarts stripped sq3) ∧ relative_indent > 0
          then 4 else standard_indent
        spaces standard_indent ++ pyLstrip line))

/-- Loop state of `CodeTemplate._fix_docstring_indentation`. -/
structure DocState where
  fixed : List Str
  in_docstring : Bool
  docstring_indent : Nat
  function_indent : Nat

/-- One line of the `_fix_docstring_indentation` loop. -/
def doc_step (st : DocState) (line : Str) : DocState :=
  let stripped := pyStrip line
  if strStarts stripped (S "def ") then
    { st with function_indent := indentOf line, fixed := st.fixed ++ [line] }
  else if ¬ st.in_docstring ∧ (strStarts stripped dq3 || strStarts stripped sq3) then
    let di := st.function_indent + 4
    let quote := if strStarts stripped dq3 then dq3 else sq3
    if countOcc stripped quote ≥ 2 then
      { st with docstring_indent := di, in_docstring := false,
                fixed := st.fixed ++ [spaces di ++ stripped] }
    else
      { st with docstring_indent := di, in_docstring := true,
                fixed := st.fixed ++ [spaces di ++ stripped] }
  else if st.in_docstring then
    if strEnds stripped dq3 || strEnds stripped sq3 then
      { st with in_docstring := false,
                fixed := st.fixed ++ [spaces st.docstring_indent ++ stripped] }
    else if ¬ stripped = [] then
      { st with fixed := st.fixed ++ [spaces st.docstring_indent ++ stripped] }
    else
      { st with fixed := st.fixed ++ [spaces st.docstring_indent] }
  else
    { st with fixed := st.fixed ++ [line] }

/-- `CodeTemplate._fix_docstring_indentation`. -/
def fix_docstring_indentation (code : Str) : Str :=
  joinLines ((splitNl code).foldl doc_step ⟨[], false, 0, 0⟩).fixed

/-- `CodeTemplate._add_method_indent`: prepend eight spaces to every
non-blank line. -/
def add_method_indent (code : Str) : Str :=
  if pyStrip code = [] then []
  else joinLines ((splitNl code).map (fun line =>
    if ¬ pyStrip line = [] then spaces 8 ++ line else []))

/-- `CodeTemplate._extract_from_ast`: keep the bodies of top-level `def`s
and whole top-level `class`es; every other top-level node is ignored. -/
def extract_from_ast (tree : List PyNode) (pt : Str) : Str × List Str :=
  let function_bodies := tree.filterMap (fun n =>
    match n with | .funcDef b => some b | _ => none)
  let class_definitions := tree.filterMap (fun n =>
    match n with | .classDef c => some c | _ => none)
  let method_body := if ¬ function_bodies = [] then joinLines function_bodies else []
  let method_body := if isMethodPoint pt then add_method_indent method_body else method_body
  (method_body, class_definitions)

/-- Loop state of `CodeTemplate._extract_from_text`. -/
structure ExtState where
  method_lines : List Str
  class_lines : List Str
  current_class : List Str
  in_class : Bool

/-- One line of the `_extract_from_text` loop. -/
def ext_step (st : ExtState) (line : Str) : ExtState :=
  let stripped := pyStrip line
  if strStarts stripped (S "class ") then
    let cl := if ¬ st.current_class = [] then st.class_lines ++ [joinLines st.current_class]
              else st.class_lines
    { st with class_lines := cl, current_class := [line], in_class := true }
  else if st.in_class then
    if ¬ stripped = [] ∧ ¬ strStarts line (S " ") ∧ ¬ strStarts line (S "\t") then
      { method_lines := st.method_lines ++ [line],
        class_lines := st.class_lines ++ [joinLines st.current_class],
        current_class := [], in_class := false }
    else
      { st with current_class := st.current_class ++ [line] }
  else if ¬ strStarts stripped (S "def ") then
    { st with method_lines := st.method_lines ++ [line] }
  else st

/-- `CodeTemplate._extract_from_text`: the line-oriented fallback used when
`ast.parse` raises a `SyntaxError`. -/
def extract_from_text (code : Str) (pt : Str) : Str × List Str :=
  let st := (splitNl code).foldl ext_step ⟨[], [], [], false⟩
  let class_lines := if ¬ st.current_class = [] then st.class_lines ++ [joinLines st.current_class]
                     else st.class_lines
  let method_body := pyStrip (joinLines st.method_lines)
  let method_body := if isMethodPoint pt then add_method_indent method_body else method_body
  (method_body, class_lines)

/-- `CodeTemplate._simple_indent_fix`: drop `def `/`class ` header lines
and reindent everything else to eight spaces. -/
def simple_indent_fix (code : Str) (pt : Str) : Str :=
  if pyStrip code = [] then []
  else
    let lines := splitNl (pyStrip code)
    let filtered_lines := lines.filter (fun l =>
      ¬ strStarts (pyStrip l) (S "def ") ∧ ¬ strStarts (pyStrip l) (S "class "))
    if isMethodPoint pt then
      joinLines (filtered_lines.map (fun line =>
        if ¬ pyStrip line = [] then spaces 8 ++ pyLstrip line else []))
    else joinLines filtered_lines

/-- `CodeTemplate._process_snippet`: normalize, fix docstrings, then try the
AST route, falling back to text extraction on `SyntaxError`.  `.error ()`
models any other exception escaping the method (caught by the caller). -/
def process_snippet (o : ParseOracle) (code_snippet : Str) (pt : Str) :
    Except Unit (Str × List Str) :=
  if o.procFault code_snippet then .error ()
  else
    let normalized := fix_docstring_indentation (normalize_code code_snippet)
    match o.parse normalized with
    | some tree => .ok (extract_from_ast tree pt)
    | none => .ok (extract_from_text normalized pt)

/-- Is this a line whose stripped text begins a `def` or `class`?
(`_insert_classes_at_proper_location` scans for the first such line.) -/
def is_def_or_class_line (l : Str) : Bool :=
  strStarts (pyStrip l) (S "def ") || strStarts (pyStrip l) (S "class ")

/-- Is this a top-level `import`/`from` line? -/
def is_import_line (l : Str) : Bool :=
  strStarts (pyStrip l) (S "import ") || strStarts (pyStrip l) (S "from ")

/-- The hoist block: a blank line, the class texts, a blank line (only when
there is at least one class). -/
def insert_block (classes : List Str) : List Str :=
  if ¬ classes = [] then [[]] ++ classes ++ [[]] else []

/-- First pass of `_insert_classes_at_proper_location`: splice the hoist
block in front of the first `def`/`class` line. -/
def first_pass (classes : List Str) : List Str → Bool → List Str
  | [], _ => []
  | l :: rest, inserted =>
    if ¬ inserted ∧ is_def_or_class_line l then
      insert_block classes ++ l :: first_pass classes rest true
    else l :: first_pass classes rest inserted

/-- Index of the last `import`/`from` line, if any. -/
def last_import_index (lines : List Str) : Option Nat :=
  (lines.foldl (fun (acc : Nat × Option Nat) l =>
    (acc.1 + 1, if is_import_line l then some acc.1 else acc.2)) (0, none)).2

/-- `CodeTemplate._insert_classes_at_proper_location`. -/
def insert_classes_at_proper_location (complete_code : Str) (classes : List Str) : Str :=
  let lines := splitNl complete_code
  if lines.any is_def_or_class_line then
    joinLines (first_pass classes lines false)
  else
    match last_import_index lines with
    | some i => joinLines (lines.take (i + 1) ++ [[]] ++ classes ++ [[]] ++ lines.drop (i + 1))
    | none => joinLines (classes ++ [[]] ++ lines)

/-- The replacement text and hoisted classes one loop iteration of
`insert_code_snippets_robust` produces for an insertion point whose marker
is present in the code: the processed snippet on success, the
`_simple_indent_fix` of the raw snippet if `_process_snippet` raised, and
the empty string for a falsy (missing or empty) snippet. -/
def robust_replacement (o : ParseOracle) (snips : Snippets) (pt : Str) : Str × List Str :=
  if truthy (snips.get pt) then
    match process_snippet o ((snips.get pt).getD []) pt with
    | .ok pc => pc
    | .error _ => (simple_indent_fix ((snips.get pt).getD []) pt, [])
  else ([], [])

/-- One iteration of the `for point_type, placeholder in ...` loop in
`insert_code_snippets_robust`, acting on the accumulated code and the
accumulated hoisted-class list. -/
def robustStep (o : ParseOracle) (snips : Snippets) (acc : Str × List Str)
    (pt ph : Str) : Str × List Str :=
  if strContains acc.1 ph ∧ truthy (snips.get pt) then
    match process_snippet o ((snips.get pt).getD []) pt with
    | .ok (processed, cls) => (pyRep acc.1 ph processed, acc.2 ++ cls)
    | .error _ => (pyRep acc.1 ph (simple_indent_fix ((snips.get pt).getD []) pt), acc.2)
  else (pyRep acc.1 ph [], acc.2)

/-- `CodeTemplate.insert_code_snippets_robust`: the two fixed insertion
points are processed in dictionary order, then all hoisted classes are
spliced in. -/
def insert_code_snippets_robust (o : ParseOracle) (base_code : Str) (snips : Snippets) : Str :=
  let acc := robustStep o snips (base_code, []) (S "OBJECTIVE_FUNCTION") ph_objective
  let acc := robustStep o snips acc (S "OPTIMIZATION_ALGORITHM") ph_algorithm
  if ¬ acc.2 = [] then insert_classes_at_proper_location acc.1 acc.2 else acc.1

/-- One loop iteration of `insert_code_snippets_robust` with the console
messages it prints threaded through an explicit log (second component). -/
def robustStepLog (o : ParseOracle) (snips : Snippets)
    (acc : (Str × List Str) × List Str) (pt ph : Str) : (Str × List Str) × List Str :=
  let code := acc.1.1
  let classes := acc.1.2
  let log := acc.2
  if strContains code ph ∧ truthy (snips.get pt) then
    match process_snippet o ((snips.get pt).getD []) pt with
    | .ok (processed, cls) =>
        ((pyRep code ph processed, classes ++ cls), log ++ [pt ++ S " 处理完成"])
    | .error _ =>
        ((pyRep code ph (simple_indent_fix ((snips.get pt).getD []) pt), classes),
         log ++ [pt ++ S " 处理失败，使用原始代码"])
  else ((pyRep code ph [], classes), log)

/-- `insert_code_snippets_robust` with its printed messages threaded
through an explicit log, so that consecutive calls can be compared: a
second call starts from the log the first one left behind. -/
def insert_code_snippets_robust_logged (o : ParseOracle) (base_code : Str)
    (snips : Snippets) (log0 : List Str) : Str × List Str :=
  let log := log0 ++ [S "🔗 开始鲁棒代码拼接..."]
  let acc := robustStepLog o snips ((base_code, []), log) (S "OBJECTIVE_FUNCTION") ph_objective
  let acc := robustStepLog o snips acc (S "OPTIMIZATION_ALGORITHM") ph_algorithm
  let code := acc.1.1
  let classes := acc.1.2
  let log := acc.2
  let final :=
    if ¬ classes = [] then
      (insert_classes_at_proper_location code classes,
       log ++ [S "已添加 " ++ natStr classes.length ++ S " 个类定义到合适位置"])
    else (code, log)
  (final.1, final.2 ++ [S "🎉 代码拼接完成"])

/-- The template line list used by the characterization lemmas: arbitrary
marker-free lines around one line per placeholder, each consisting of
whitespace indentation followed by the marker (the shape of the shipped
`Network_code.py` and of the default template). -/
def template_lines (pre mid post : List Str) (ind1 ind2 : Str) : List Str :=
  pre ++ [ind1 ++ ph_objective] ++ mid ++ [ind2 ++ ph_algorithm] ++ post

/-- Drop the `other` top-level nodes from every parse the oracle returns. -/
def dropOther (o : ParseOracle) : ParseOracle :=
  ⟨fun s => (o.parse s).map (List.filter (fun n =>
    match n with | PyNode.other => false | _ => true)), o.procFault⟩

/-!
### `src/agents/code_executor.py` — the execution sandbox

The interpreter state the sandbox saves and restores is made explicit:
working directory, `sys.path`, the `sys.stdout`/`sys.stderr` bindings and
the module cache.  The executed program is an oracle that may mutate all
of that state and then finish normally, raise an `Exception` (carrying the
`traceback.format_exc()` text), or raise `SystemExit` — which is *not* a
subclass of `Exception` and therefore passes every `except Exception`
handler in the file.
-/

/-- The interpreter state `_execute_file` manipulates. -/
structure SysState where
  cwd : Str
  syspath : List Str
  stdoutStream : Str
  stderrStream : Str
  modules : List Str
deriving DecidableEq

/-- How the executed program terminates. -/
inductive ProgOutcome where
  | ok
  | exc (tb : Str)
  | sysExit
deriving DecidableEq

/-- The executed program: an arbitrary mutation of the interpreter state,
a termination outcome, and the text it wrote into the two `StringIO`
captures. -/
structure Program where
  run : SysState → SysState
  outcome : ProgOutcome
  out : Str
  err : Str

/-- The result dictionary of `_execute_file`/`execute_code`. -/
structure ExecDict where
  success : Bool
  output : Str
  error : Str
  execution_time : Nat
deriving DecidableEq

/-- `CodeExecutor._execute_file`: save cwd/`sys.path`/stdout/stderr,
redirect, run the program under `runpy`, then restore everything and drop
the module-cache entry for the file's stem in a `finally` block.  The
`.error ()` alternative is a `SystemExit` escaping the `except Exception`
handler (the `finally` blocks still run). -/
def execute_file (prog : Program) (fileDir moduleName : Str) (t1 t2 : Nat)
    (s : SysState) : Except Unit ExecDict × SysState :=
  let original_cwd := s.cwd
  let original_syspath := s.syspath
  let old_stdout := s.stdoutStream
  let old_stderr := s.stderrStream
  let s1 : SysState :=
    { s with cwd := fileDir,
             syspath := if fileDir ∈ s.syspath then s.syspath else fileDir :: s.syspath,
             stdoutStream := S "<stdout capture>",
             stderrStream := S "<stderr capture>" }
  let s2 := prog.run s1
  let result : ExecDict :=
    match prog.outcome with
    | .ok => { success := true, output := [], error := [], execution_time := t2 - t1 }
    | _ => { success := false, output := [], error := [], execution_time := 0 }
  let result : ExecDict :=
    match prog.outcome with
    | .exc tb => { result with error := S "执行错误:\n" ++ tb }
    | _ => result
  let result : ExecDict :=
    { result with
        output := prog.out,
        error := if ¬ prog.err = [] then result.error ++ S "\n标准错误输出:\n" ++ prog.err
                 else result.error }
  let s3 : SysState :=
    { s2 with stdoutStream := old_stdout,
              stderrStream := old_stderr,
              cwd := original_cwd,
              syspath := original_syspath,
              modules := s2.modules.filter (fun m => ¬ m = moduleName) }
  match prog.outcome with
  | .sysExit => (.error (), s3)
  | _ => (.ok result, s3)

/-- The executor's state: interpreter state plus the files currently
existing in the `code_temp` directory. -/
structure ExecutorState where
  sys : SysState
  tempFiles : List Str
deriving DecidableEq

/-- `CodeExecutor.execute_code`: write the program text to a temporary
file, run it via `_execute_file`, and unlink the file afterwards.  The
unlink sits on the normal return path only, and the surrounding
`except Exception` does not catch a propagating `SystemExit`. -/
def execute_code (prog : Program) (tempName fileDir moduleName : Str)
    (t0 t1 t2 t3 : Nat) (st : ExecutorState) : Except Unit ExecDict × ExecutorState :=
  let tempFiles1 := tempName :: st.tempFiles
  let (r, sys2) := execute_file prog fileDir moduleName t1 t2 st.sys
  match r with
  | .ok execRes =>
      let result := { execRes with execution_time := t3 - t0 }
      (.ok result, { sys := sys2, tempFiles := tempFiles1.filter (fun f => ¬ f = tempName) })
  | .error e => (.error e, { sys := sys2, tempFiles := tempFiles1 })

/-!
### `src/agents/manager.py` — the decision function

Floats never enter arithmetic here; the code only compares the objective
value against `float('inf')`/`float('-inf')`, so `PyFloat` keeps exactly
that distinction.  The two `format`-style renderings appearing in the
decision dictionaries (`str(x)` and `f'{x:.6f}'`) are supplied as an
oracle `FloatFmt`.  The comparison
`len(successful) >= len(all) * 0.5` is exact binary-float arithmetic for
the list lengths that can occur, hence embedded as `2 * successful >= all`.
-/

/-- A Python float as far as the manager inspects it. -/
inductive PyFloat where
  | inf
  | neg_inf
  | finite (v : Int)
deriving DecidableEq

/-- Rendering oracles for floats in f-strings. -/
structure FloatFmt where
  repr : PyFloat → Str
  fmt6 : PyFloat → Str

/-- The decision dictionary returned by `ManagerAgent`. -/
structure ManagerDecision where
  decision : Str
  reason : Str
  next_action : Str
  feedback : Str
deriving DecidableEq

/-- One entry of `optimization_result['all_algorithm_results']['all_results']`:
the algorithm name and whether `'error'` is among its keys. -/
structure AlgEntry where
  name : Str
  hasError : Bool
deriving DecidableEq

/-- `optimization_result['all_algorithm_results']` (the `'all_results'`
key may be absent). -/
structure AllAlg where
  all_results : Option (List AlgEntry)
deriving DecidableEq

/-- The `optimization_result` dictionary as `_mock_decision` reads it
(absent keys/`None` values are `none`; `.get('success', False)` collapses
an absent key and `False`). -/
structure OptResult where
  all_algorithm_results : Option AllAlg
  success : Bool
  objective_value : Option PyFloat
deriving DecidableEq

/-- Keywords whose presence in `error_info.lower()` marks a severe error. -/
def severeKeywords : List Str :=
  [S "syntax error", S "语法错误", S "import error", S "module not found"]

/-- The trailing `if optimization_result:` quality checks of
`_mock_decision`, reached when the multi-algorithm block did not apply. -/
def quality_branch (fmt : FloatFmt) (iteration_count : Nat) (user_instruction : Str)
    (opt : OptResult) : ManagerDecision :=
  match opt.objective_value, opt.success with
  | some v, true =>
      if v = .inf ∨ v = .neg_inf then
        { decision := S "NEED_CORRECTION",
          reason := S "优化结果异常（无穷大/无穷小），可能存在数值问题",
          next_action := S "检查目标函数实现，改进数值稳定性",
          feedback := S "优化结果异常，正在检查和改进算法..." }
      else
        { decision := S "TERMINATE_SUCCESS",
          reason := S "优化算法收敛，得到合理的目标函数值 " ++ fmt.repr v,
          next_action := S "输出最终优化结果给用户",
          feedback := S "优化成功完成！根据指令\"" ++ user_instruction ++
                      S "\"，找到最优解，目标函数值为 " ++ fmt.fmt6 v }
  | _, _ =>
      if iteration_count ≤ 2 then
        { decision := S "CONTINUE_OPTIMIZATION",
          reason := S "当前优化结果不理想，但可以尝试不同的算法或参数",
          next_action := S "调整优化算法参数或尝试其他算法",
          feedback := S "正在尝试改进优化算法..." }
      else
        { decision := S "TERMINATE_FAILURE",
          reason := S "多次尝试后优化仍未成功",
          next_action := S "报告当前最佳结果，建议用户检查问题设置",
          feedback := S "优化过程遇到困难，可能需要调整问题设置或约束条件。" }

/-- The multi-algorithm block of `_mock_decision`, reached when
`optimization_result` carries an `all_algorithm_results` dictionary with an
`all_results` table. -/
def multi_alg_branch (iteration_count : Nat) (entries : List AlgEntry) :
    ManagerDecision :=
  let successful := (entries.filter (fun e => ¬ e.hasError)).map (fun e => e.name)
  if ¬ successful = [] then
    if entries.length ≤ 2 * successful.length then
      { decision := S "TERMINATE_SUCCESS",
        reason := S "多算法优化成功，" ++ natStr successful.length ++ S "/" ++
                  natStr entries.length ++ S "个算法成功执行",
        next_action := S "输出所有算法结果给用户",
        feedback := S "多算法优化完成！成功算法: " ++ joinSep (S ", ") successful }
    else
      { decision := S "CONTINUE_OPTIMIZATION",
        reason := S "部分算法成功执行，可以尝试改进失败的算法",
        next_action := S "调整算法参数或尝试其他算法",
        feedback := S "部分算法成功，继续优化..." }
  else if iteration_count ≤ 2 then
    { decision := S "CONTINUE_OPTIMIZATION",
      reason := S "所有算法失败，但可以尝试改进",
      next_action := S "检查算法实现，调整参数",
      feedback := S "所有算法失败，正在尝试改进..." }
  else
    { decision := S "TERMINATE_FAILURE",
      reason := S "多次尝试后所有算法仍失败",
      next_action := S "报告失败结果，建议用户检查问题设置",
      feedback := S "优化过程遇到困难，可能需要调整问题设置。" }

/-- `ManagerAgent._mock_decision` (the `iteration_count` argument is the
value after the `make_decision` increment). -/
def mock_decision (fmt : FloatFmt) (iteration_count max_iterations : Nat)
    (user_instruction : Str) (execution_result : Option ExecDict)
    (optimization_result : Option OptResult) (error_info : Option Str) :
    ManagerDecision :=
  if max_iterations ≤ iteration_count then
    { decision := S "TERMINATE_FAILURE",
      reason := S "已达到最大迭代次数 (" ++ natStr max_iterations ++ S ")，无法进一步改进",
      next_action := S "终止优化，报告当前最佳结果",
      feedback := S "由于迭代次数限制，优化过程终止。请检查问题设置或增加迭代次数。" }
  else if (match error_info with
           | some e => !e.isEmpty && severeKeywords.any (fun k => strContains (pyLower e) k)
           | none => false) then
    { decision := S "NEED_CORRECTION",
      reason := S "代码存在语法错误或导入错误，需要修正",
      next_action := S "调用Reviewer修正代码错误",
      feedback := S "代码执行出错：" ++ (error_info.getD []) ++ S "，正在尝试修正..." }
  else if !(match execution_result with
            | some er => er.success
            | none => false) then
    { decision := S "NEED_CORRECTION",
      reason := S "代码执行失败，可能存在逻辑错误",
      next_action := S "分析错误原因，调用Reviewer修正代码",
      feedback := S "代码执行失败，正在分析问题并尝试修正..." }
  else
    match optimization_result with
    | some opt =>
      match opt.all_algorithm_results with
      | some allAlg =>
        match allAlg.all_results with
        | some entries => multi_alg_branch iteration_count entries
        | none => quality_branch fmt iteration_count user_instruction opt
      | none => quality_branch fmt iteration_count user_instruction opt
    | none =>
      { decision := S "CONTINUE_OPTIMIZATION",
        reason := S "当前状态未明确，继续尝试优化",
        next_action := S "继续执行优化流程",
        feedback := S "正在继续优化过程..." }

/-- One line of the `_parse_decision_result` loop. -/
def parse_line_step (r : ManagerDecision) (line : Str) : ManagerDecision :=
  let line := pyStrip line
  if strStarts line (S "DECISION:") then { r with decision := pyStrip (afterFirstColon line) }
  else if strStarts line (S "REASON:") then { r with reason := pyStrip (afterFirstColon line) }
  else if strStarts line (S "NEXT_ACTION:") then
    { r with next_action := pyStrip (afterFirstColon line) }
  else if strStarts line (S "FEEDBACK:") then { r with feedback := pyStrip (afterFirstColon line) }
  else r

/-- `ManagerAgent._parse_decision_result`: scan the LLM text for the four
labelled fields; the decision defaults to `CONTINUE_OPTIMIZATION`. -/
def parse_decision_result (decision_text : Str) : ManagerDecision :=
  (splitNl (pyStrip decision_text)).foldl parse_line_step
    { decision := S "CONTINUE_OPTIMIZATION", reason := [], next_action := [], feedback := [] }

/-!
### `src/agents/multi_agent_system.py` — the orchestrator

The collaborator round trips (`execute_single_round_with_full_reviewer`,
`ManagerAgent.make_decision`,
`_execute_correction_with_reviewer_full`, `_regenerate_solver_code`) are
LLM- and sandbox-driven, so they appear as oracles indexed by the loop
iteration.  `PureOracles` models fault-free runs; `ExcOracles` lets each
call raise an `Exception`-kind fault (`SystemExit`-kind escapes are outside
both the round boundary and the orchestrator boundary, see the sandbox
section, and the faults the claims name are all `Exception` subclasses).
-/

/-- The round-result dictionary the decision loop threads. -/
structure RoundResult where
  success : Bool
  execution_result : Option ExecDict
  error : Option Str
deriving DecidableEq

/-- `self.workflow_state`, restricted to the fields the claims concern. -/
structure WorkflowState where
  current_iteration : Nat
  max_iterations : Nat
  termination_reason : Option Str
  final_iteration_result : Option RoundResult
deriving DecidableEq

/-- The final dictionary built by `_generate_final_result` (or by the
`except` branch of `solve_optimization_problem`, which omits the
iteration/termination keys — modelled by `none`/`0`). -/
structure FinalResult where
  success : Bool
  termination_reason : Option Str
  total_iterations : Nat
  error : Option Str
deriving DecidableEq

/-- Fault-free collaborator oracles. -/
structure PureOracles where
  initial_round : RoundResult
  make_decision : Nat → RoundResult → ManagerDecision
  run_correction : ManagerDecision → RoundResult → RoundResult
  regenerate_solver : ManagerDecision → RoundResult

/-- `MultiAgentSystem._execute_manager_decision`: correction, solver
regeneration, or pass the current result through (the `TERMINATE_*` and
unknown-decision branches both return `current_result`). -/
def execute_manager_decision (o : PureOracles) (d : ManagerDecision)
    (cur : RoundResult) : RoundResult :=
  if d.decision = S "NEED_CORRECTION" then o.run_correction d cur
  else if d.decision = S "UPDATE_SOLVER" then o.regenerate_solver d
  else cur

/-- `MultiAgentSystem._should_terminate`. -/
def should_terminate (d : ManagerDecision) (execution_result : RoundResult) : Bool :=
  if d.decision = S "TERMINATE_SUCCESS" ∨ d.decision = S "TERMINATE_FAILURE" then true
  else if execution_result.success ∧
          ¬ (d.decision = S "NEED_CORRECTION" ∨ d.decision = S "UPDATE_SOLVER") then true
  else false

/-- `MultiAgentSystem._finalize_workflow`. -/
def finalize_workflow (decisionStr : Str) (finalResult : RoundResult)
    (ws : WorkflowState) : WorkflowState :=
  { ws with termination_reason := some decisionStr,
            final_iteration_result := some finalResult }

/-- The `while self.workflow_state['current_iteration'] < max_iterations:`
loop of `solve_optimization_problem`, with its `else:` clause folded in
(Python's `while`/`else` runs the `else` exactly when the loop exits by the
condition, not by `break`).  The fuel argument is a termination device;
the claims show `max_iterations + 1` steps always suffice. -/
def decision_loop (o : PureOracles) (maxIter : Nat) :
    Nat → WorkflowState → RoundResult → WorkflowState
  | 0, ws, _ => ws
  | fuel + 1, ws, cur =>
    if ws.current_iteration < maxIter then
      let d := o.make_decision ws.current_iteration cur
      let next := execute_manager_decision o d cur
      if should_terminate d next then finalize_workflow d.decision next ws
      else decision_loop o maxIter fuel
        { ws with current_iteration := ws.current_iteration + 1 } next
    else finalize_workflow (S "TERMINATE_MAX_ITERATIONS") cur ws

/-- `MultiAgentSystem._generate_final_result`. -/
def generate_final_result (ws : WorkflowState) : FinalResult :=
  let frSuccess := (ws.final_iteration_result.map (fun r => r.success)).getD false
  let final_success :=
    ws.termination_reason = some (S "TERMINATE_SUCCESS") ∨
    (frSuccess ∧ ¬ ws.termination_reason = some (S "TERMINATE_FAILURE"))
  let err : Option Str :=
    match ws.final_iteration_result with
    | some r => match r.error with
                | some e => if ¬ final_success ∧ ¬ e = [] then some e else none
                | none => none
    | none => none
  { success := final_success,
    termination_reason := ws.termination_reason,
    total_iterations := ws.current_iteration,
    error := err }

/-- `MultiAgentSystem.solve_optimization_problem` for a fault-free run:
round one, then the manager-driven loop, then the final result. -/
def solve_optimization_problem (o : PureOracles) (maxIter : Nat) : FinalResult :=
  let cur := o.initial_round
  let ws : WorkflowState :=
    { current_iteration := 1, max_iterations := maxIter,
      termination_reason := none, final_iteration_result := none }
  generate_final_result (decision_loop o maxIter (maxIter + 1) ws cur)

/-- The value of `current_result` when the loop is about to run iteration
`k + 1`, under fault-free oracles that never satisfy `_should_terminate`:
`round_chain o 0` is the round-one result, and each later entry is the
outcome of executing the manager decision of the previous round. -/
def round_chain (o : PureOracles) : Nat → RoundResult
  | 0 => o.initial_round
  | k + 1 =>
    let cur := round_chain o k
    execute_manager_decision o (o.make_decision (k + 1) cur) cur

/-- An `Exception`-kind Python fault. -/
inductive PyExc where
  | exc (msg : Str)
deriving DecidableEq

/-- Collaborator oracles that may raise `Exception`-kind faults. -/
structure ExcOracles where
  initial_round_raw : Except PyExc RoundResult
  make_decision : Nat → RoundResult → Except PyExc ManagerDecision
  run_correction_raw : ManagerDecision → RoundResult → Except PyExc RoundResult
  regenerate_solver_raw : ManagerDecision → Except PyExc RoundResult

/-- The `except Exception` boundary inside
`execute_single_round_with_full_reviewer` (and, with other messages, inside
`_execute_correction_with_reviewer_full` / `_regenerate_solver_code`): a
fault becomes a returned dictionary with `success = False` and the fault
text in `error`. -/
def round_boundary (prefix_msg : Str) (r : Except PyExc RoundResult) : RoundResult :=
  match r with
  | .ok v => v
  | .error (.exc m) => { success := false, execution_result := none,
                         error := some (prefix_msg ++ m) }

/-- `_execute_manager_decision` over faultable sub-calls (each of which has
its own internal `except Exception` boundary and therefore never raises). -/
def execute_manager_decision_exc (o : ExcOracles) (d : ManagerDecision)
    (cur : RoundResult) : RoundResult :=
  if d.decision = S "NEED_CORRECTION" then
    round_boundary (S "修正流程异常: ") (o.run_correction_raw d cur)
  else if d.decision = S "UPDATE_SOLVER" then
    round_boundary (S "重新生成异常: ") (o.regenerate_solver_raw d)
  else cur

/-- The decision loop when `make_decision` may raise: the fault propagates
out of the loop (to the orchestrator boundary). -/
def decision_loop_exc (o : ExcOracles) (maxIter : Nat) :
    Nat → WorkflowState → RoundResult → Except PyExc WorkflowState
  | 0, ws, _ => .ok ws
  | fuel + 1, ws, cur =>
    if ws.current_iteration < maxIter then
      match o.make_decision ws.current_iteration cur with
      | .error e => .error e
      | .ok d =>
        let next := execute_manager_decision_exc o d cur
        if should_terminate d next then .ok (finalize_workflow d.decision next ws)
        else decision_loop_exc o maxIter fuel
          { ws with current_iteration := ws.current_iteration + 1 } next
    else .ok (finalize_workflow (S "TERMINATE_MAX_ITERATIONS") cur ws)

/-- The `try:` body of `solve_optimization_problem` with faultable
oracles. -/
def solve_body (o : ExcOracles) (maxIter : Nat) : Except PyExc FinalResult :=
  let cur := round_boundary (S "单轮协作异常: ") o.initial_round_raw
  let ws : WorkflowState :=
    { current_iteration := 1, max_iterations := maxIter,
      termination_reason := none, final_iteration_result := none }
  match decision_loop_exc o maxIter (maxIter + 1) ws cur with
  | .error e => .error e
  | .ok ws' => .ok (generate_final_result ws')

/-- `solve_optimization_problem` including its outer `except Exception`
boundary: a fault reaching it is converted into a failure dictionary
(`{'success': False, 'error': f"工作流程异常: {e}", ...}`). -/
def solve_with_boundary (o : ExcOracles) (maxIter : Nat) : FinalResult :=
  match solve_body o maxIter with
  | .ok r => r
  | .error (.exc m) =>
      { success := false, termination_reason := none, total_iterations := 0,
        error := some (S "工作流程异常: " ++ m) }

/-!
### Library of facts about the embedded string operations
-/

theorem strContains_cons (c : Char) (s p : Str) :
    strContains (c :: s) p = (List.isPrefixOf p (c :: s) || strContains s p) := rfl

theorem contains_of_pfx {s p : Str} (h : List.isPrefixOf p s = true) :
    strContains s p = true := by
  cases s with
  | nil => exact h
  | cons c rest => simp [strContains_cons, h]

theorem contains_append_right {y p : Str} (x : Str) (h : strContains y p = true) :
    strContains (x ++ y) p = true := by
  induction x with
  | nil => exact h
  | cons c x ih => simp [strContains_cons, ih]

theorem contains_append_left {x p : Str} (y : Str) (h : strContains x p = true) :
    strContains (x ++ y) p = true := by
  induction x with
  | nil =>
    have h' : List.isPrefixOf p [] = true := h
    have hp : p = [] := by simpa [List.isPrefixOf_iff_prefix] using h'
    subst hp
    apply contains_of_pfx
    simp [List.isPrefixOf_iff_prefix]
  | cons c x ih =>
    rw [strContains_cons] at h
    rw [List.cons_append, strContains_cons, Bool.or_eq_true_iff]
    rcases Bool.or_eq_true_iff.mp h with h1 | h2
    · left
      rw [List.isPrefixOf_iff_prefix] at h1 ⊢
      exact h1.trans (List.prefix_append (c :: x) y)
    · right
      exact ih h2

theorem contains_infix (a b p : Str) : strContains (a ++ p ++ b) p = true := by
  have h1 : strContains (p ++ b) p = true := by
    apply contains_of_pfx
    rw [List.isPrefixOf_iff_prefix]
    exact List.prefix_append _ _
  simpa [List.append_assoc] using contains_append_right a h1

theorem drop_len_le {p : Str} (c : Char) (rest : Str) (hplen : 1 ≤ p.length) :
    (List.drop p.length (c :: rest)).length ≤ rest.length := by
  rw [List.length_drop]
  simp only [List.length_cons]
  omega

theorem pyRepF_congr {p r : Str} :
    ∀ {n m : Nat} (s : Str), s.length ≤ n → s.length ≤ m → pyRepF n s p r = pyRepF m s p r := by
  intro n
  induction n with
  | zero =>
    intro m s hn _
    have : s = [] := List.length_eq_zero.mp (Nat.le_zero.mp hn)
    subst this
    cases m <;> rfl
  | succ n ih =>
    intro m s hn hm
    cases s with
    | nil => cases m <;> rfl
    | cons c rest =>
      cases m with
      | zero => simp at hm
      | succ m =>
        simp only [pyRepF]
        have hn' : rest.length ≤ n := by simpa using hn
        have hm' : rest.length ≤ m := by simpa using hm
        split
        · rename_i hcond
          have hplen : 1 ≤ p.length := by
            rcases hcond with ⟨hne, _⟩
            cases p with
            | nil => exact absurd rfl hne
            | cons _ _ => simp
          have hdl := drop_len_le c rest hplen
          rw [ih _ (le_trans hdl hn') (le_trans hdl hm')]
        · rw [ih _ hn' hm']

theorem pyRep_nil (p r : Str) : pyRep [] p r = [] := rfl

theorem pyRep_pos {s p : Str} (r : Str) (hne : p ≠ [])
    (h : List.isPrefixOf p s = true) :
    pyRep s p r = r ++ pyRep (s.drop p.length) p r := by
  cases s with
  | nil =>
    have h' : List.isPrefixOf p [] = true := h
    have hp : p = [] := by simpa [List.isPrefixOf_iff_prefix] using h'
    exact absurd hp hne
  | cons c rest =>
    show pyRepF (c :: rest).length (c :: rest) p r = _
    rw [List.length_cons]
    simp only [pyRepF]
    rw [if_pos ⟨hne, h⟩]
    congr 1
    apply pyRepF_congr
    · have hplen : 1 ≤ p.length := by
        cases p with
        | nil => exact absurd rfl hne
        | cons _ _ => simp
      exact drop_len_le c rest hplen
    · exact Nat.le_refl _

theorem pyRep_cons_neg {c : Char} {rest p : Str} (r : Str)
    (h : List.isPrefixOf p (c :: rest) = false) :
    pyRep (c :: rest) p r = c :: pyRep rest p r := by
  show pyRepF (c :: rest).length (c :: rest) p r = _
  rw [List.length_cons]
  simp only [pyRepF]
  rw [if_neg (by simp [h])]
  rfl

theorem pyRep_id_of_not_contains {s p : Str} (r : Str)
    (h : strContains s p = false) : pyRep s p r = s := by
  induction s with
  | nil => rfl
  | cons c rest ih =>
    rw [strContains_cons, Bool.or_eq_false_iff] at h
    rw [pyRep_cons_neg r h.1, ih h.2]

theorem prefix_split_at_nl :
    ∀ (x p y : Str), '\n' ∉ p → List.isPrefixOf p (x ++ '\n' :: y) = true →
      List.isPrefixOf p x = true := by
  intro x
  induction x with
  | nil =>
    intro p y hnl h
    cases p with
    | nil => simp
    | cons d p' =>
      rw [List.nil_append] at h
      rw [List.isPrefixOf_iff_prefix] at h
      have hd : d = '\n' := (List.cons_prefix_cons.mp h).1
      exact absurd (hd ▸ List.mem_cons_self d p') hnl
  | cons c x' ih =>
    intro p y hnl h
    cases p with
    | nil => simp
    | cons d p' =>
      rw [List.cons_append] at h
      rw [List.isPrefixOf_iff_prefix, List.cons_prefix_cons] at h ⊢
      refine ⟨h.1, ?_⟩
      rw [← List.isPrefixOf_iff_prefix] at h ⊢
      exact ih p' y (fun hm => hnl (List.mem_cons_of_mem d hm)) h.2

theorem prefix_len_at_nl {p x y : Str} (hnl : '\n' ∉ p)
    (h : List.isPrefixOf p (x ++ '\n' :: y) = true) : p.length ≤ x.length := by
  have hx := prefix_split_at_nl x p y hnl h
  rw [List.isPrefixOf_iff_prefix] at hx
  exact hx.length_le

theorem pyRep_nl_head {p r : Str} (hne : p ≠ []) (hnl : '\n' ∉ p) (y : Str) :
    pyRep ('\n' :: y) p r = '\n' :: pyRep y p r := by
  apply pyRep_cons_neg
  cases p with
  | nil => exact absurd rfl hne
  | cons d p' =>
    apply Bool.eq_false_iff.mpr
    intro hc
    rw [List.isPrefixOf_iff_prefix, List.cons_prefix_cons] at hc
    exact hnl (hc.1 ▸ List.mem_cons_self d p')

theorem pyRep_append_nl {p r : Str} (hne : p ≠ []) (hnl : '\n' ∉ p) :
    ∀ (x y : Str), pyRep (x ++ '\n' :: y) p r = pyRep x p r ++ '\n' :: pyRep y p r := by
  suffices H : ∀ (n : Nat) (x y : Str), x.length ≤ n →
      pyRep (x ++ '\n' :: y) p r = pyRep x p r ++ '\n' :: pyRep y p r by
    intro x y
    exact H x.length x y (Nat.le_refl _)
  intro n
  induction n with
  | zero =>
    intro x y hx
    have hx0 : x = [] := List.length_eq_zero.mp (Nat.le_zero.mp hx)
    subst hx0
    rw [List.nil_append, pyRep_nil, List.nil_append, pyRep_nl_head hne hnl]
  | succ n ih =>
    intro x y hx
    cases x with
    | nil => rw [List.nil_append, pyRep_nil, List.nil_append, pyRep_nl_head hne hnl]
    | cons c x' =>
      have hplen : 1 ≤ p.length := by
        cases p with
        | nil => exact absurd rfl hne
        | cons _ _ => simp
      by_cases hp : List.isPrefixOf p (c :: x' ++ '\n' :: y) = true
      · have hp' : List.isPrefixOf p (c :: x') = true := by
          apply prefix_split_at_nl (c :: x') p y hnl
          simpa using hp
        have hlen : p.length ≤ (c :: x').length := by
          apply prefix_len_at_nl hnl (y := y)
          simpa using hp
        rw [show (c :: x') ++ '\n' :: y = c :: (x' ++ '\n' :: y) from rfl] at hp ⊢
        rw [pyRep_pos r hne hp, pyRep_pos r hne hp']
        have hdrop : (c :: (x' ++ '\n' :: y)).drop p.length =
            (c :: x').drop p.length ++ '\n' :: y := by
          rw [show (c :: (x' ++ '\n' :: y)) = (c :: x') ++ '\n' :: y from rfl]
          exact List.drop_append_of_le_length hlen
        rw [hdrop]
        rw [ih ((c :: x').drop p.length) y ?hb]
        · simp
        · case hb =>
            have := drop_len_le (p := p) c x' hplen
            have hx' : x'.length ≤ n := by simpa using hx
            exact le_trans this hx'
      · have hpfalse : List.isPrefixOf p (c :: (x' ++ '\n' :: y)) = false := by
          simpa using (Bool.eq_false_iff.mpr hp)
        have hp' : List.isPrefixOf p (c :: x') = false := by
          apply Bool.eq_false_iff.mpr
          intro hc
          apply hp
          rw [List.isPrefixOf_iff_prefix] at hc ⊢
          exact hc.trans (List.prefix_append (c :: x') ('\n' :: y))
        rw [show (c :: x') ++ '\n' :: y = c :: (x' ++ '\n' :: y) from rfl]
        rw [pyRep_cons_neg r hpfalse, pyRep_cons_neg r hp']
        rw [ih x' y (by simpa using hx)]
        simp

theorem joinLines_cons_cons (a b : Str) (t : List Str) :
    joinLines (a :: b :: t) = a ++ '\n' :: joinLines (b :: t) := rfl

theorem pyRep_joinLines {p r : Str} (hne : p ≠ []) (hnl : '\n' ∉ p) :
    ∀ (ls : List Str), pyRep (joinLines ls) p r = joinLines (ls.map (fun l => pyRep l p r)) := by
  intro ls
  induction ls with
  | nil => rfl
  | cons a t ih =>
    cases t with
    | nil => rfl
    | cons b t' =>
      rw [joinLines_cons_cons, pyRep_append_nl hne hnl, ih]
      simp [joinLines_cons_cons]

theorem pyRep_ws_marker {hc : Char} {pt r : Str} (hhc : isPySpace hc = false) :
    ∀ (ind : Str), (∀ c ∈ ind, isPySpace c = true) →
      pyRep (ind ++ (hc :: pt)) (hc :: pt) r = ind ++ r := by
  intro ind
  induction ind with
  | nil =>
    intro _
    rw [List.nil_append]
    rw [pyRep_pos r (by simp) (by rw [List.isPrefixOf_iff_prefix])]
    simp [pyRep_nil]
  | cons c ind' ih =>
    intro hws
    have hcne : List.isPrefixOf (hc :: pt) (c :: (ind' ++ hc :: pt)) = false := by
      apply Bool.eq_false_iff.mpr
      intro h
      rw [List.isPrefixOf_iff_prefix, List.cons_prefix_cons] at h
      have : isPySpace hc = true := h.1 ▸ hws c (List.mem_cons_self c ind')
      rw [hhc] at this
      simp at this
    rw [List.cons_append, pyRep_cons_neg r hcne,
      ih (fun d hd => hws d (List.mem_cons_of_mem c hd))]
    rfl

theorem not_contains_ws_append {hc : Char} {pt r : Str} (hhc : isPySpace hc = false)
    (hr : strContains r (hc :: pt) = false) :
    ∀ (ind : Str), (∀ c ∈ ind, isPySpace c = true) →
      strContains (ind ++ r) (hc :: pt) = false := by
  intro ind
  induction ind with
  | nil =>
    intro _
    simpa using hr
  | cons c ind' ih =>
    intro hws
    rw [List.cons_append, strContains_cons, Bool.or_eq_false_iff]
    constructor
    · apply Bool.eq_false_iff.mpr
      intro h
      rw [List.isPrefixOf_iff_prefix, List.cons_prefix_cons] at h
      have : isPySpace hc = true := h.1 ▸ hws c (List.mem_cons_self c ind')
      rw [hhc] at this
      simp at this
    · exact ih (fun d hd => hws d (List.mem_cons_of_mem c hd))

theorem splitNl_ne_nil (s : Str) : splitNl s ≠ [] := by
  cases s with
  | nil => simp [splitNl]
  | cons c rest =>
    simp only [splitNl]
    split
    · simp
    · split <;> simp

theorem splitNl_cons_nl (y : Str) : splitNl ('\n' :: y) = [] :: splitNl y := by
  simp [splitNl]

theorem splitNl_cons_other {c : Char} (hc : ¬ c = '\n') (y : Str) :
    splitNl (c :: y) = (c :: (splitNl y).headI) :: (splitNl y).tail := by
  simp only [splitNl, hc, if_false, reduceIte]
  obtain ⟨l, ls, h⟩ := List.exists_cons_of_ne_nil (splitNl_ne_nil y)
  rw [h]
  simp

theorem nlFree_of_mem_splitNl : ∀ (s : Str) (l : Str), l ∈ splitNl s → '\n' ∉ l := by
  intro s
  induction s with
  | nil =>
    intro l hl
    simp only [splitNl, List.mem_singleton] at hl
    subst hl
    simp
  | cons c rest ih =>
    intro l hl
    by_cases hc : c = '\n'
    · subst hc
      rw [splitNl_cons_nl] at hl
      rcases List.mem_cons.mp hl with h | h
      · subst h; simp
      · exact ih l h
    · rw [splitNl_cons_other hc] at hl
      rcases List.mem_cons.mp hl with h | h
      · subst h
        intro hmem
        rcases List.mem_cons.mp hmem with h' | h'
        · exact hc h'.symm
        · obtain ⟨l0, ls0, h0⟩ := List.exists_cons_of_ne_nil (splitNl_ne_nil rest)
          have : l0 ∈ splitNl rest := by rw [h0]; exact List.mem_cons_self _ _
          exact ih l0 this (by simpa [h0] using h')
      · obtain ⟨l0, ls0, h0⟩ := List.exists_cons_of_ne_nil (splitNl_ne_nil rest)
        apply ih l
        rw [h0]
        exact List.mem_cons_of_mem l0 (by simpa [h0] using h)

theorem splitNl_append_nl : ∀ (x y : Str), splitNl (x ++ '\n' :: y) = splitNl x ++ splitNl y := by
  intro x y
  induction x with
  | nil => rw [List.nil_append, splitNl_cons_nl]; rfl
  | cons c x' ih =>
    by_cases hc : c = '\n'
    · subst hc
      rw [List.cons_append, splitNl_cons_nl, splitNl_cons_nl, ih]
      rfl
    · rw [List.cons_append, splitNl_cons_other hc, splitNl_cons_other hc, ih]
      obtain ⟨l0, ls0, h0⟩ := List.exists_cons_of_ne_nil (splitNl_ne_nil x')
      rw [h0]
      simp

theorem splitNl_nlFree {l : Str} (h : '\n' ∉ l) : splitNl l = [l] := by
  induction l with
  | nil => rfl
  | cons c l' ih =>
    have hc : ¬ c = '\n' := fun hh => h (hh ▸ List.mem_cons_self c l')
    rw [splitNl_cons_other hc, ih (fun hm => h (List.mem_cons_of_mem c hm))]
    rfl

theorem splitNl_joinLines_flat :
    ∀ (ls : List (Str)), ls ≠ [] → splitNl (joinLines ls) = (ls.map splitNl).flatten := by
  intro ls
  induction ls with
  | nil => intro h; exact absurd rfl h
  | cons a t ih =>
    intro _
    cases t with
    | nil => simp [joinLines]
    | cons b t' =>
      rw [joinLines_cons_cons, splitNl_append_nl, ih (by simp)]
      simp

theorem splitNl_joinLines {ls : List Str} (hnl : ∀ l ∈ ls, '\n' ∉ l) (hne : ls ≠ []) :
    splitNl (joinLines ls) = ls := by
  rw [splitNl_joinLines_flat ls hne]
  induction ls with
  | nil => rfl
  | cons a t ih =>
    rw [List.map_cons, List.flatten_cons, splitNl_nlFree (hnl a (List.mem_cons_self a t))]
    cases t with
    | nil => rfl
    | cons b t' =>
      rw [ih (fun l hl => hnl l (List.mem_cons_of_mem a hl)) (by simp)]
      rfl

theorem splitNl_head_prefix : ∀ (s : Str), ∃ b, s = (splitNl s).headI ++ b := by
  intro s
  induction s with
  | nil => exact ⟨[], rfl⟩
  | cons c rest ih =>
    by_cases hc : c = '\n'
    · subst hc
      rw [splitNl_cons_nl]
      exact ⟨'\n' :: rest, rfl⟩
    · obtain ⟨b, hb⟩ := ih
      refine ⟨b, ?_⟩
      rw [splitNl_cons_other hc]
      show c :: rest = (c :: (splitNl rest).headI) ++ b
      rw [List.cons_append, ← hb]

theorem mem_splitNl_infix : ∀ (s l : Str), l ∈ splitNl s → ∃ a b, s = a ++ (l ++ b) := by
  intro s
  induction s with
  | nil =>
    intro l hl
    simp only [splitNl, List.mem_singleton] at hl
    subst hl
    exact ⟨[], [], rfl⟩
  | cons c rest ih =>
    intro l hl
    by_cases hc : c = '\n'
    · subst hc
      rw [splitNl_cons_nl] at hl
      rcases List.mem_cons.mp hl with h | h
      · subst h; exact ⟨[], '\n' :: rest, rfl⟩
      · obtain ⟨a, b, hab⟩ := ih l h
        exact ⟨'\n' :: a, b, by rw [hab]; rfl⟩
    · rw [splitNl_cons_other hc] at hl
      obtain ⟨l0, ls0, h0⟩ := List.exists_cons_of_ne_nil (splitNl_ne_nil rest)
      rcases List.mem_cons.mp hl with h | h
      · subst h
        obtain ⟨b0, hb0⟩ := splitNl_head_prefix rest
        refine ⟨[], b0, ?_⟩
        rw [List.nil_append, List.cons_append]
        rw [← hb0]
      · have hmem : l ∈ splitNl rest := by
          rw [h0]
          refine List.mem_cons_of_mem l0 ?_
          simpa [h0] using h
        obtain ⟨a, b, hab⟩ := ih l hmem
        exact ⟨c :: a, b, by rw [hab]; rfl⟩

theorem contains_of_line {s l p : Str} (hl : l ∈ splitNl s)
    (h : strContains l p = true) : strContains s p = true := by
  obtain ⟨a, b, hab⟩ := mem_splitNl_infix s l hl
  rw [hab]
  exact contains_append_right a (contains_append_left b h)

theorem prefix_first_line {p : Str} (hnl : '\n' ∉ p) :
    ∀ (s : Str), List.isPrefixOf p s = true →
      List.isPrefixOf p (splitNl s).headI = true := by
  intro s
  induction s generalizing p with
  | nil =>
    intro h
    have h' : List.isPrefixOf p [] = true := h
    have : p = [] := by simpa [List.isPrefixOf_iff_prefix] using h'
    subst this
    simp
  | cons c rest ih =>
    intro h
    cases p with
    | nil => simp
    | cons d p' =>
      rw [List.isPrefixOf_iff_prefix, List.cons_prefix_cons] at h
      have hdc : d = c := h.1
      have hc : ¬ c = '\n' := by
        intro hcn
        exact hnl (by rw [hdc, hcn]; exact List.mem_cons_self _ _)
      rw [splitNl_cons_other hc]
      simp only [List.headI]
      rw [List.isPrefixOf_iff_prefix, List.cons_prefix_cons]
      refine ⟨hdc, ?_⟩
      have hp' := ih (p := p') (fun hm => hnl (List.mem_cons_of_mem d hm))
        (List.isPrefixOf_iff_prefix.mpr h.2)
      rw [List.isPrefixOf_iff_prefix] at hp'
      exact hp'

theorem not_contains_of_lines {p : Str} (hnl : '\n' ∉ p) :
    ∀ (s : Str), (∀ l ∈ splitNl s, strContains l p = false) →
      strContains s p = false := by
  intro s
  induction s with
  | nil =>
    intro h
    exact h [] (by simp [splitNl])
  | cons c rest ih =>
    intro h
    rw [strContains_cons, Bool.or_eq_false_iff]
    constructor
    · apply Bool.eq_false_iff.mpr
      intro hpre
      have hfirst := prefix_first_line hnl (c :: rest) hpre
      have hmem : (splitNl (c :: rest)).headI ∈ splitNl (c :: rest) := by
        obtain ⟨l0, ls0, h0⟩ := List.exists_cons_of_ne_nil (splitNl_ne_nil (c :: rest))
        rw [h0]
        exact List.mem_cons_self _ _
      have hcf := h _ hmem
      rw [contains_of_pfx hfirst] at hcf
      simp at hcf
    · apply ih
      intro l hl
      by_cases hc : c = '\n'
      · subst hc
        exact h l (by rw [splitNl_cons_nl]; exact List.mem_cons_of_mem _ hl)
      · obtain ⟨l0, ls0, h0⟩ := List.exists_cons_of_ne_nil (splitNl_ne_nil rest)
        have hl' : l ∈ l0 :: ls0 := by rw [← h0]; exact hl
        rcases List.mem_cons.mp hl' with heq | htail
        · subst heq
          apply Bool.eq_false_iff.mpr
          intro hcont
          have hcl : strContains (c :: l) p = true := by
            rw [strContains_cons, hcont]
            simp
          have hmem : (c :: l) ∈ splitNl (c :: rest) := by
            rw [splitNl_cons_other hc, h0]
            exact List.mem_cons_self _ _
          have := h _ hmem
          rw [hcl] at this
          simp at this
        · apply Bool.eq_false_iff.mpr
          intro hcont
          have hmem : l ∈ splitNl (c :: rest) := by
            rw [splitNl_cons_other hc, h0]
            exact List.mem_cons_of_mem _ htail
          have := h _ hmem
          rw [hcont] at this
          simp at this

/-!
### Facts about class hoisting and the decision loop
-/

theorem first_pass_flag_true {classes : List Str} :
    ∀ (lines : List Str), first_pass classes lines true = lines := by
  intro lines
  induction lines with
  | nil => rfl
  | cons l rest ih =>
    simp only [first_pass]
    rw [if_neg (by simp), ih]

theorem first_pass_found {classes : List Str} :
    ∀ (u : List Str) (d : Str) (v : List Str),
      (∀ l ∈ u, is_def_or_class_line l = false) → is_def_or_class_line d = true →
      first_pass classes (u ++ d :: v) false = u ++ insert_block classes ++ d :: v := by
  intro u
  induction u with
  | nil =>
    intro d v _ hd
    rw [List.nil_append, List.nil_append]
    simp only [first_pass]
    rw [if_pos (And.intro (by decide) hd), first_pass_flag_true]
  | cons a u' ih =>
    intro d v hu hd
    rw [List.cons_append]
    simp only [first_pass]
    rw [if_neg (by simp [hu a (List.mem_cons_self a u')])]
    rw [ih d v (fun l hl => hu l (List.mem_cons_of_mem a hl)) hd]
    rfl

theorem first_pass_mem {classes : List Str} :
    ∀ (lines : List Str) (flag : Bool) (x : Str),
      x ∈ first_pass classes lines flag → x ∈ lines ∨ x ∈ classes ∨ x = [] := by
  intro lines
  induction lines with
  | nil => intro flag x hx; simp [first_pass] at hx
  | cons l rest ih =>
    intro flag x hx
    simp only [first_pass] at hx
    split at hx
    · rcases List.mem_append.mp hx with h1 | h2
      · simp only [insert_block] at h1
        split at h1
        · rcases List.mem_append.mp h1 with h3 | h4
          · rcases List.mem_append.mp h3 with h5 | h6
            · right; right; simpa using h5
            · right; left; exact h6
          · right; right; simpa using h4
        · simp at h1
      · rcases List.mem_cons.mp h2 with h3 | h4
        · left; exact h3 ▸ List.mem_cons_self l rest
        · rcases ih true x h4 with h | h
          · left; exact List.mem_cons_of_mem l h
          · right; exact h
    · rcases List.mem_cons.mp hx with h3 | h4
      · left; exact h3 ▸ List.mem_cons_self l rest
      · rcases ih flag x h4 with h | h
        · left; exact List.mem_cons_of_mem l h
        · right; exact h

theorem decision_loop_congr (o : PureOracles) (maxIter : Nat) :
    ∀ (f g : Nat) (ws : WorkflowState) (cur : RoundResult),
      0 < f → maxIter < ws.current_iteration + f →
      0 < g → maxIter < ws.current_iteration + g →
      decision_loop o maxIter f ws cur = decision_loop o maxIter g ws cur := by
  intro f
  induction f with
  | zero => intro g ws cur hf _ _ _; exact absurd hf (by simp)
  | succ f ih =>
    intro g ws cur _ hfi hg hgi
    cases g with
    | zero => exact absurd hg (by simp)
    | succ g =>
      simp only [decision_loop]
      split
      · rename_i hlt
        split
        · rfl
        · apply ih
          · omega
          · show maxIter < ws.current_iteration + 1 + f
            omega
          · omega
          · show maxIter < ws.current_iteration + 1 + g
            omega
      · rfl

theorem decision_loop_reason_isSome (o : PureOracles) (maxIter : Nat) :
    ∀ (f : Nat) (ws : WorkflowState) (cur : RoundResult),
      0 < f → maxIter < ws.current_iteration + f →
      (decision_loop o maxIter f ws cur).termination_reason.isSome = true := by
  intro f
  induction f with
  | zero => intro ws cur hf _; exact absurd hf (by simp)
  | succ f ih =>
    intro ws cur _ hfi
    simp only [decision_loop]
    split
    · rename_i hlt
      split
      · simp [finalize_workflow]
      · rename_i hlt _
        apply ih
        · omega
        · show maxIter < ws.current_iteration + 1 + f
          omega
    · simp [finalize_workflow]

theorem decision_loop_exhaust (o : PureOracles) (maxIter : Nat)
    (hnt : ∀ i r, should_terminate (o.make_decision i r)
      (execute_manager_decision o (o.make_decision i r) r) = false) :
    ∀ (f : Nat) (ws : WorkflowState) (cur : RoundResult),
      0 < f → maxIter < ws.current_iteration + f →
      1 ≤ ws.current_iteration → ws.current_iteration ≤ maxIter →
      cur = round_chain o (ws.current_iteration - 1) →
      (decision_loop o maxIter f ws cur).termination_reason
          = some (S "TERMINATE_MAX_ITERATIONS") ∧
      (decision_loop o maxIter f ws cur).final_iteration_result
          = some (round_chain o (maxIter - 1)) := by
  intro f
  induction f with
  | zero => intro ws cur hf _ _ _ _; exact absurd hf (by simp)
  | succ f ih =>
    intro ws cur _ hfi h1 hle hcur
    simp only [decision_loop]
    split
    · rename_i hlt
      rw [hnt ws.current_iteration cur]
      simp only [Bool.false_eq_true, if_false, reduceIte]
      have hnext : execute_manager_decision o
          (o.make_decision ws.current_iteration cur) cur =
          round_chain o ((ws.current_iteration + 1) - 1) := by
        have hci : ws.current_iteration = (ws.current_iteration - 1) + 1 := by omega
        conv_rhs => rw [show (ws.current_iteration + 1) - 1 = (ws.current_iteration - 1) + 1
          from by omega]
        rw [round_chain]
        rw [← hcur, ← hci]
      rw [hnext]
      apply ih
      · omega
      · show maxIter < ws.current_iteration + 1 + f
        omega
      · show 1 ≤ ws.current_iteration + 1
        omega
      · show ws.current_iteration + 1 ≤ maxIter
        omega
      · rfl
    · rename_i hge
      have : ws.current_iteration = maxIter := by omega
      rw [hcur, this]
      simp [finalize_workflow]

theorem map_id_of {α : Type} {f : α → α} :
    ∀ (ls : List α), (∀ l ∈ ls, f l = l) → ls.map f = ls := by
  intro ls
  induction ls with
  | nil => intro _; rfl
  | cons a t ih =>
    intro h
    rw [List.map_cons, h a (List.mem_cons_self a t),
      ih (fun l hl => h l (List.mem_cons_of_mem a hl))]

theorem contains_joinLines_of_mem :
    ∀ (ls : List Str) (l p : Str), l ∈ ls → strContains l p = true →
      strContains (joinLines ls) p = true := by
  intro ls
  induction ls with
  | nil => intro l p h _; simp at h
  | cons a t ih =>
    intro l p hl hc
    rcases List.mem_cons.mp hl with h | h
    · subst h
      cases t with
      | nil => exact hc
      | cons b t' =>
        rw [joinLines_cons_cons]
        exact contains_append_left _ hc
    · cases t with
      | nil => simp at h
      | cons b t' =>
        rw [joinLines_cons_cons]
        apply contains_append_right
        rw [strContains_cons, ih l p h hc]
        simp

theorem contains_append_self (a p : Str) : strContains (a ++ p) p = true := by
  have := contains_infix a [] p
  simpa using this

/-- Facts about the two placeholder markers, established by computation. -/
theorem ph_objective_shape :
    ph_objective = '#' :: (S " \x7b\x7bINSERT_OBJECTIVE_FUNCTION\x7d\x7d") ∧
    isPySpace '#' = false ∧ '\n' ∉ ph_objective ∧ ph_objective ≠ [] := by decide

theorem ph_algorithm_shape :
    ph_algorithm = '#' :: (S " \x7b\x7bINSERT_OPTIMIZATION_ALGORITHM\x7d\x7d") ∧
    isPySpace '#' = false ∧ '\n' ∉ ph_algorithm ∧ ph_algorithm ≠ [] := by decide

/-- The two markers do not contain one another. -/
theorem ph_cross_free :
    strContains ph_algorithm ph_objective = false ∧
    strContains ph_objective ph_algorithm = false := by decide

theorem robustStep_eq (o : ParseOracle) (snips : Snippets) (pt ph : Str)
    (code : Str) (classes : List Str) (hc : strContains code ph = true) :
    robustStep o snips (code, classes) pt ph =
      (pyRep code ph (robust_replacement o snips pt).1,
       classes ++ (robust_replacement o snips pt).2) := by
  unfold robustStep robust_replacement
  by_cases ht : truthy (snips.get pt) = true
  · rw [if_pos ⟨hc, ht⟩, if_pos ht]
    cases hps : process_snippet o ((snips.get pt).getD []) pt with
    | ok pc => cases pc; simp
    | error e => simp
  · rw [if_neg (by simp [ht]), if_neg ht]
    simp

/-- Central characterization: on a well-shaped template, the two loop
iterations of `insert_code_snippets_robust` replace exactly the two marker
occurrences — each marker line `ind ++ marker` becomes `ind ++ r`, every
other template line is preserved verbatim, and the hoisted classes are
collected in processing order. -/
theorem robust_steps_on_template
    (o : ParseOracle) (snips : Snippets)
    (pre mid post : List Str) (ind1 ind2 : Str)
    (r1 r2 : Str) (cls1 cls2 : List Str)
    (hrep1 : robust_replacement o snips (S "OBJECTIVE_FUNCTION") = (r1, cls1))
    (hrep2 : robust_replacement o snips (S "OPTIMIZATION_ALGORITHM") = (r2, cls2))
    (hws1 : ∀ c ∈ ind1, isPySpace c = true) (hws2 : ∀ c ∈ ind2, isPySpace c = true)
    (hfree1 : ∀ l ∈ pre ++ mid ++ post, strContains l ph_objective = false)
    (hfree2 : ∀ l ∈ pre ++ mid ++ post, strContains l ph_algorithm = false)
    (hr1b : strContains r1 ph_algorithm = false) :
    robustStep o snips
      (robustStep o snips (joinLines (template_lines pre mid post ind1 ind2), [])
        (S "OBJECTIVE_FUNCTION") ph_objective)
      (S "OPTIMIZATION_ALGORITHM") ph_algorithm =
    (joinLines (pre ++ [ind1 ++ r1] ++ mid ++ [ind2 ++ r2] ++ post), cls1 ++ cls2) := by
  obtain ⟨hsh1, hhash, hnl1, hne1⟩ := ph_objective_shape
  obtain ⟨hsh2, _, hnl2, hne2⟩ := ph_algorithm_shape
  obtain ⟨hc21, hc12⟩ := ph_cross_free
  -- the first marker occurs in the template
  have hin1 : strContains (joinLines (template_lines pre mid post ind1 ind2))
      ph_objective = true := by
    apply contains_joinLines_of_mem _ (ind1 ++ ph_objective)
    · unfold template_lines
      refine List.mem_append.mpr (Or.inl ?_)
      refine List.mem_append.mpr (Or.inl ?_)
      refine List.mem_append.mpr (Or.inl ?_)
      exact List.mem_append.mpr (Or.inr (List.mem_singleton.mpr rfl))
    · exact contains_append_self ind1 ph_objective
  rw [robustStep_eq o snips _ _ _ _ hin1, hrep1]
  -- first replacement, linewise
  have hstep1 : pyRep (joinLines (template_lines pre mid post ind1 ind2)) ph_objective r1 =
      joinLines (pre ++ [ind1 ++ r1] ++ mid ++ [ind2 ++ ph_algorithm] ++ post) := by
    rw [pyRep_joinLines hne1 hnl1]
    unfold template_lines
    congr 1
    simp only [List.map_append, List.map_cons, List.map_nil]
    have hx21 : strContains (ind2 ++ ph_algorithm) ph_objective = false := by
      rw [hsh1]
      exact not_contains_ws_append hhash (hsh1 ▸ hc21) ind2 hws2
    rw [map_id_of pre (fun l hl => pyRep_id_of_not_contains r1
      (hfree1 l (List.mem_append.mpr (Or.inl (List.mem_append.mpr (Or.inl hl))))))]
    rw [map_id_of mid (fun l hl => pyRep_id_of_not_contains r1
      (hfree1 l (List.mem_append.mpr (Or.inl (List.mem_append.mpr (Or.inr hl))))))]
    rw [map_id_of post (fun l hl => pyRep_id_of_not_contains r1
      (hfree1 l (List.mem_append.mpr (Or.inr hl))))]
    rw [pyRep_id_of_not_contains r1 hx21]
    rw [hsh1, pyRep_ws_marker hhash ind1 hws1]
  rw [hstep1]
  -- the second marker occurs in the once-replaced code
  have hin2 : strContains (joinLines (pre ++ [ind1 ++ r1] ++ mid ++ [ind2 ++ ph_algorithm] ++ post))
      ph_algorithm = true := by
    apply contains_joinLines_of_mem _ (ind2 ++ ph_algorithm)
    · refine List.mem_append.mpr (Or.inl ?_)
      refine List.mem_append.mpr (Or.inr ?_)
      exact List.mem_singleton.mpr rfl
    · exact contains_append_self ind2 ph_algorithm
  rw [robustStep_eq o snips _ _ _ _ hin2, hrep2]
  -- second replacement, linewise
  have hstep2 : pyRep (joinLines (pre ++ [ind1 ++ r1] ++ mid ++ [ind2 ++ ph_algorithm] ++ post))
      ph_algorithm r2 =
      joinLines (pre ++ [ind1 ++ r1] ++ mid ++ [ind2 ++ r2] ++ post) := by
    rw [pyRep_joinLines hne2 hnl2]
    congr 1
    simp only [List.map_append, List.map_cons, List.map_nil]
    have hline1 : strContains (ind1 ++ r1) ph_algorithm = false := by
      rw [hsh2]
      exact not_contains_ws_append hhash (hsh2 ▸ hr1b) ind1 hws1
    rw [map_id_of pre (fun l hl => pyRep_id_of_not_contains r2
      (hfree2 l (List.mem_append.mpr (Or.inl (List.mem_append.mpr (Or.inl hl))))))]
    rw [map_id_of mid (fun l hl => pyRep_id_of_not_contains r2
      (hfree2 l (List.mem_append.mpr (Or.inl (List.mem_append.mpr (Or.inr hl))))))]
    rw [map_id_of post (fun l hl => pyRep_id_of_not_contains r2
      (hfree2 l (List.mem_append.mpr (Or.inr hl))))]
    rw [pyRep_id_of_not_contains r2 hline1]
    rw [hsh2, pyRep_ws_marker hhash ind2 hws2]
  rw [hstep2]
  simp

theorem not_contains_joinLines {p : Str} (hp : p ≠ []) (hnl : '\n' ∉ p) :
    ∀ (ls : List Str), (∀ x ∈ ls, strContains x p = false) →
      strContains (joinLines ls) p = false := by
  intro ls h
  apply not_contains_of_lines hnl
  intro l hl
  cases ls with
  | nil =>
    simp only [joinLines, splitNl, List.mem_singleton] at hl
    subst hl
    cases p with
    | nil => exact absurd rfl hp
    | cons d p' => rfl
  | cons a t =>
    rw [splitNl_joinLines_flat _ (by simp)] at hl
    obtain ⟨lss, hlss, hmem⟩ := List.mem_flatten.mp hl
    obtain ⟨x, hx, hsx⟩ := List.mem_map.mp hlss
    apply Bool.eq_false_iff.mpr
    intro hcont
    have : strContains x p = true := contains_of_line (hsx ▸ hmem) hcont
    rw [h x hx] at this
    simp at this

theorem insert_classes_not_contains {p : Str} (hp : p ≠ []) (hnl : '\n' ∉ p)
    (code : Str) (classes : List Str)
    (hcode : strContains code p = false)
    (hcls : ∀ x ∈ classes, strContains x p = false) :
    strContains (insert_classes_at_proper_location code classes) p = false := by
  have hline : ∀ l ∈ splitNl code, strContains l p = false := by
    intro l hl
    apply Bool.eq_false_iff.mpr
    intro hcont
    rw [contains_of_line hl hcont] at hcode
    simp at hcode
  have helem : ∀ x, (x ∈ splitNl code ∨ x ∈ classes ∨ x = []) → strContains x p = false := by
    intro x hx
    rcases hx with h | h | h
    · exact hline x h
    · exact hcls x h
    · subst h
      cases p with
      | nil => exact absurd rfl hp
      | cons d p' => rfl
  show strContains
      (if (splitNl code).any is_def_or_class_line = true then
        joinLines (first_pass classes (splitNl code) false)
      else
        match last_import_index (splitNl code) with
        | some i => joinLines ((splitNl code).take (i + 1) ++ [[]] ++ classes ++ [[]] ++
            (splitNl code).drop (i + 1))
        | none => joinLines (classes ++ [[]] ++ splitNl code)) p = false
  split
  · apply not_contains_joinLines hp hnl
    intro x hx
    exact helem x (first_pass_mem (splitNl code) false x hx)
  · split
    · apply not_contains_joinLines hp hnl
      intro x hx
      apply helem
      rcases List.mem_append.mp hx with h | h
      · rcases List.mem_append.mp h with h' | h'
        · rcases List.mem_append.mp h' with h'' | h''
          · rcases List.mem_append.mp h'' with h3 | h3
            · exact Or.inl (List.mem_of_mem_take h3)
            · right; right; simpa using h3
          · right; left; exact h''
        · right; right; simpa using h'
      · exact Or.inl (List.mem_of_mem_drop h)
    · apply not_contains_joinLines hp hnl
      intro x hx
      apply helem
      rcases List.mem_append.mp hx with h | h
      · rcases List.mem_append.mp h with h' | h'
        · right; left; exact h'
        · right; right; simpa using h'
      · exact Or.inl h

/-!
### Helper facts for the remaining claims
-/

theorem robustStepLog_value (o : ParseOracle) (snips : Snippets)
    (acc : Str × List Str) (log : List Str) (pt ph : Str) :
    (robustStepLog o snips (acc, log) pt ph).1 = robustStep o snips acc pt ph := by
  unfold robustStepLog robustStep
  by_cases h : strContains acc.1 ph = true ∧ truthy (snips.get pt) = true
  · rw [if_pos h, if_pos h]
    cases hps : process_snippet o ((snips.get pt).getD []) pt with
    | ok pc => cases pc; rfl
    | error e => rfl
  · rw [if_neg h, if_neg h]

theorem logged_value_eq (o : ParseOracle) (base_code : Str) (snips : Snippets)
    (log0 : List Str) :
    (insert_code_snippets_robust_logged o base_code snips log0).1 =
      insert_code_snippets_robust o base_code snips := by
  simp only [insert_code_snippets_robust_logged, insert_code_snippets_robust]
  obtain ⟨acc1, log1, hacc1⟩ :
      ∃ a l, robustStepLog o snips ((base_code, []), log0 ++ [S "🔗 开始鲁棒代码拼接..."])
        (S "OBJECTIVE_FUNCTION") ph_objective = (a, l) :=
    ⟨_, _, rfl⟩
  have h1 := robustStepLog_value o snips (base_code, [])
    (log0 ++ [S "🔗 开始鲁棒代码拼接..."]) (S "OBJECTIVE_FUNCTION") ph_objective
  rw [hacc1] at h1 ⊢
  obtain ⟨acc2, log2, hacc2⟩ :
      ∃ a l, robustStepLog o snips (acc1, log1) (S "OPTIMIZATION_ALGORITHM") ph_algorithm =
        (a, l) := ⟨_, _, rfl⟩
  have h2 := robustStepLog_value o snips acc1 log1 (S "OPTIMIZATION_ALGORITHM") ph_algorithm
  rw [hacc2] at h2 ⊢
  simp only at h1 h2
  rw [h1] at h2
  rw [h2]
  split <;> simp

theorem filterMap_drop_other {β : Type} (f : PyNode → Option β) (hf : f PyNode.other = none) :
    ∀ (tree : List PyNode),
      (tree.filter (fun n => match n with | PyNode.other => false | _ => true)).filterMap f =
        tree.filterMap f := by
  intro tree
  induction tree with
  | nil => rfl
  | cons n t ih =>
    cases n with
    | funcDef b => simp only [List.filter_cons, List.filterMap_cons]; rw [← ih]; rfl
    | classDef c => simp only [List.filter_cons, List.filterMap_cons]; rw [← ih]; rfl
    | other =>
      simp only [List.filter_cons, List.filterMap_cons, hf]
      exact ih

theorem extract_from_ast_drop_other (tree : List PyNode) (pt : Str) :
    extract_from_ast (tree.filter (fun n =>
      match n with | PyNode.other => false | _ => true)) pt = extract_from_ast tree pt := by
  unfold extract_from_ast
  rw [filterMap_drop_other _ rfl, filterMap_drop_other _ rfl]

theorem process_snippet_drop_other (o : ParseOracle) (s pt : Str) :
    process_snippet (dropOther o) s pt = process_snippet o s pt := by
  unfold process_snippet dropOther
  split
  · rfl
  · simp only []
    cases hp : o.parse (fix_docstring_indentation (normalize_code s)) with
    | none => simp [hp]
    | some tree => simp [hp, extract_from_ast_drop_other]

theorem add_method_indent_lines (code : Str) :
    ∀ l ∈ splitNl (add_method_indent code), l = [] ∨ strStarts l (spaces 8) = true := by
  intro l hl
  unfold add_method_indent at hl
  split at hl
  · simp only [splitNl, List.mem_singleton] at hl
    exact Or.inl hl
  · have hnlmap : ∀ x ∈ (splitNl code).map (fun line =>
        if ¬ pyStrip line = [] then spaces 8 ++ line else []), '\n' ∉ x := by
      intro x hx
      obtain ⟨y, hy, hxy⟩ := List.mem_map.mp hx
      subst hxy
      split
      · intro hmem
        rcases List.mem_append.mp hmem with h | h
        · simp [spaces] at h
        · exact nlFree_of_mem_splitNl code y hy h
      · simp
    rw [splitNl_joinLines hnlmap (by
      intro hemp
      have := splitNl_ne_nil code
      simp at hemp
      exact this hemp)] at hl
    obtain ⟨y, _, hxy⟩ := List.mem_map.mp hl
    subst hxy
    split
    · right
      apply List.isPrefixOf_iff_prefix.mpr
      exact List.prefix_append _ _
    · exact Or.inl rfl

theorem ext_fold_no_class :
    ∀ (lines : List Str) (acc : List Str),
      (∀ l ∈ lines, strStarts (pyStrip l) (S "class ") = false) →
      lines.foldl ext_step ⟨acc, [], [], false⟩ =
        ⟨acc ++ lines.filter (fun l => !strStarts (pyStrip l) (S "def ")), [], [], false⟩ := by
  intro lines
  induction lines with
  | nil => intro acc _; simp
  | cons l rest ih =>
    intro acc h
    have hcl := h l (List.mem_cons_self l rest)
    rw [List.foldl_cons]
    have hstep : ext_step ⟨acc, [], [], false⟩ l =
        if strStarts (pyStrip l) (S "def ") = true then ⟨acc, [], [], false⟩
        else ⟨acc ++ [l], [], [], false⟩ := by
      unfold ext_step
      rw [if_neg (by simp [hcl])]
      by_cases hd : strStarts (pyStrip l) (S "def ") = true
      · rw [if_pos hd]
        simp only [Bool.false_eq_true, if_false, reduceIte]
        rw [if_neg (by simp [hd])]
      · rw [if_neg (by simp), if_pos (by simpa using hd), if_neg (by simpa using hd)]
    rw [hstep]
    by_cases hd : strStarts (pyStrip l) (S "def ") = true
    · rw [if_pos hd, ih acc (fun x hx => h x (List.mem_cons_of_mem l hx))]
      simp [List.filter_cons, hd]
    · rw [if_neg hd, ih (acc ++ [l]) (fun x hx => h x (List.mem_cons_of_mem l hx))]
      simp only [List.filter_cons]
      rw [show (!strStarts (pyStrip l) (S "def ")) = true by simpa using hd]
      simp

theorem parse_fold_decision :
    ∀ (lines : List Str) (r : ManagerDecision),
      (∀ l ∈ lines, strStarts (pyStrip l) (S "DECISION:") = false) →
      (lines.foldl parse_line_step r).decision = r.decision := by
  intro lines
  induction lines with
  | nil => intro r _; rfl
  | cons l rest ih =>
    intro r h
    rw [List.foldl_cons, ih _ (fun x hx => h x (List.mem_cons_of_mem l hx))]
    unfold parse_line_step
    rw [if_neg (by simp [h l (List.mem_cons_self l rest)])]
    split
    · rfl
    · split
      · rfl
      · split <;> rfl

theorem contains_refl (p : Str) : strContains p p = true := by
  apply contains_of_pfx
  rw [List.isPrefixOf_iff_prefix]

theorem pyLstrip_spaces_append (n : Nat) (z : Str) :
    pyLstrip (spaces n ++ z) = pyLstrip z := by
  induction n with
  | zero => rfl
  | succ n ih =>
    show pyLstrip (' ' :: (spaces n ++ z)) = pyLstrip z
    unfold pyLstrip
    rw [List.dropWhile_cons_of_pos (by decide)]
    exact ih

theorem pyLstrip_idem (z : Str) : pyLstrip (pyLstrip z) = pyLstrip z := by
  unfold pyLstrip
  induction z with
  | nil => rfl
  | cons c t ih =>
    by_cases h : isPySpace c = true
    · rw [List.dropWhile_cons_of_pos h]
      exact ih
    · rw [List.dropWhile_cons_of_neg (by simp [h]),
        List.dropWhile_cons_of_neg (by simp [h])]

theorem pyStrip_spaces_append (n : Nat) (z : Str) :
    pyStrip (spaces n ++ z) = pyStrip z := by
  unfold pyStrip pyRstrip
  rw [show pyLstrip (spaces n ++ z) = pyLstrip z from pyLstrip_spaces_append n z]

theorem pyStrip_lstrip (z : Str) : pyStrip (pyLstrip z) = pyStrip z := by
  unfold pyStrip pyRstrip
  rw [pyLstrip_idem]

theorem nlFree_pyLstrip {l : Str} (h : '\n' ∉ l) : '\n' ∉ pyLstrip l :=
  fun hm => h ((List.dropWhile_sublist _).mem hm)

/-!
### The claims
-/

/-- Claim C7: on every exit path of `CodeExecutor._execute_file` — normal
return, a program `Exception` captured by the inner handler, or a
`SystemExit` propagating past it — the `finally` blocks restore the prior
working directory, `sys.path`, `sys.stdout` and `sys.stderr`, and remove
the module-cache entry keyed by the executed file's module name, whatever
state mutations the executed program performed. -/
theorem c7_sandbox_restoration (prog : Program) (fileDir moduleName : Str)
    (t1 t2 : Nat) (s : SysState) :
    ((execute_file prog fileDir moduleName t1 t2 s).2.cwd = s.cwd) ∧
    ((execute_file prog fileDir moduleName t1 t2 s).2.syspath = s.syspath) ∧
    ((execute_file prog fileDir moduleName t1 t2 s).2.stdoutStream = s.stdoutStream) ∧
    ((execute_file prog fileDir moduleName t1 t2 s).2.stderrStream = s.stderrStream) ∧
    moduleName ∉ (execute_file prog fileDir moduleName t1 t2 s).2.modules := by
  unfold execute_file
  cases prog.outcome <;> simp [List.mem_filter]

/-- Claim C6, counterexample: a program that raises `SystemExit` (for
example by calling `sys.exit(1)`) escapes the `except Exception` handlers
of both `_execute_file` and `execute_code`; no `ExecutionResult` is
returned and the temporary file is left behind — refuting "a temporary
file is created, executed, and deleted regardless of outcome — not leaked
on any fault". -/
theorem c6_counterexample :
    (execute_code ⟨fun st => st, ProgOutcome.sysExit, [], []⟩ (S "temp_code_1.py")
      (S "code_temp") (S "temp_code_1") 0 0 0 0
      ⟨⟨S "/", [], S "stdout", S "stderr", []⟩, []⟩).1 = .error () ∧
    S "temp_code_1.py" ∈ (execute_code ⟨fun st => st, ProgOutcome.sysExit, [], []⟩
      (S "temp_code_1.py") (S "code_temp") (S "temp_code_1") 0 0 0 0
      ⟨⟨S "/", [], S "stdout", S "stderr", []⟩, []⟩).2.tempFiles := by
  constructor
  · rfl
  · show S "temp_code_1.py" ∈ [S "temp_code_1.py"]
    exact List.mem_singleton.mpr rfl

/-- Claim C6 (amended): `execute_code` creates a temporary file and deletes
it on every outcome on which the call returns — normal completion, and any
uncaught program fault of the `Exception` kind, for which the returned
result has `success == False` and a non-empty `error` carrying the full
stack-trace text.  A program fault that is not an `Exception` subclass
(such as `SystemExit`) escapes both `except Exception` handlers and leaks
the temporary file. -/
theorem c6_amended_temp_file (prog : Program) (tempName fileDir moduleName : Str)
    (t0 t1 t2 t3 : Nat) (st : ExecutorState) :
    (∀ tb, prog.outcome = .exc tb →
      ∃ res, (execute_code prog tempName fileDir moduleName t0 t1 t2 t3 st).1 = .ok res ∧
        res.success = false ∧ ¬ res.error = [] ∧ strContains res.error tb = true ∧
        tempName ∉ (execute_code prog tempName fileDir moduleName t0 t1 t2 t3 st).2.tempFiles) ∧
    (prog.outcome = .ok →
      ∃ res, (execute_code prog tempName fileDir moduleName t0 t1 t2 t3 st).1 = .ok res ∧
        res.success = true ∧
        tempName ∉ (execute_code prog tempName fileDir moduleName t0 t1 t2 t3 st).2.tempFiles) ∧
    (prog.outcome = .sysExit →
      (execute_code prog tempName fileDir moduleName t0 t1 t2 t3 st).1 = .error () ∧
      tempName ∈ (execute_code prog tempName fileDir moduleName t0 t1 t2 t3 st).2.tempFiles) :=
  by
  refine ⟨?_, ?_, ?_⟩
  · intro tb hout
    unfold execute_code execute_file
    rw [hout]
    refine ⟨_, rfl, rfl, ?_, ?_, ?_⟩
    · show ¬ (if ¬ prog.err = [] then (S "执行错误:\n" ++ tb) ++ S "\n标准错误输出:\n" ++ prog.err
            else S "执行错误:\n" ++ tb) = []
      split <;> simp [S]
    · show strContains (if ¬ prog.err = [] then
          (S "执行错误:\n" ++ tb) ++ S "\n标准错误输出:\n" ++ prog.err
          else S "执行错误:\n" ++ tb) tb = true
      split
      · exact contains_append_left _ (contains_append_left _ (contains_append_self _ tb))
      · exact contains_append_self _ tb
    · show tempName ∉ (tempName :: st.tempFiles).filter (fun f => ¬ f = tempName)
      simp [List.mem_filter]
  · intro hout
    unfold execute_code execute_file
    rw [hout]
    refine ⟨_, rfl, rfl, ?_⟩
    show tempName ∉ (tempName :: st.tempFiles).filter (fun f => ¬ f = tempName)
    simp [List.mem_filter]
  · intro hout
    unfold execute_code execute_file
    rw [hout]
    exact ⟨rfl, List.mem_cons_self _ _⟩

/-- Claim C6, witness for the amended theorem at a concrete faulting
program. -/
theorem c6_amended_temp_file_witness :
    ∃ res, (execute_code ⟨fun st => st, ProgOutcome.exc (S "ZeroDivisionError"), [], []⟩
        (S "t.py") (S "code_temp") (S "t") 0 0 0 0
        ⟨⟨S "/", [], S "stdout", S "stderr", []⟩, []⟩).1 = .ok res ∧
      res.success = false ∧ ¬ res.error = [] ∧
      strContains res.error (S "ZeroDivisionError") = true ∧
      S "t.py" ∉ (execute_code ⟨fun st => st, ProgOutcome.exc (S "ZeroDivisionError"), [], []⟩
        (S "t.py") (S "code_temp") (S "t") 0 0 0 0
        ⟨⟨S "/", [], S "stdout", S "stderr", []⟩, []⟩).2.tempFiles :=
  (c6_amended_temp_file ⟨fun st => st, ProgOutcome.exc (S "ZeroDivisionError"), [], []⟩
    (S "t.py") (S "code_temp") (S "t") 0 0 0 0
    ⟨⟨S "/", [], S "stdout", S "stderr", []⟩, []⟩).1 (S "ZeroDivisionError") rfl

/-- Claim C10: when structural parsing succeeds, `_extract_from_ast` keeps
only the bodies of top-level `def`s and whole top-level `class`es; every
other top-level node contributes nothing — dropping all `other` nodes from
every parse changes neither the extraction result nor the final assembled
program. -/
theorem c10_ast_extraction :
    (∀ (tree : List PyNode) (pt : Str),
      extract_from_ast (tree.filter (fun n =>
        match n with | PyNode.other => false | _ => true)) pt = extract_from_ast tree pt) ∧
    (∀ (o : ParseOracle) (base_code : Str) (snips : Snippets),
      insert_code_snippets_robust (dropOther o) base_code snips =
        insert_code_snippets_robust o base_code snips) := by
  constructor
  · exact extract_from_ast_drop_other
  · intro o base_code snips
    have hstep : ∀ acc pt ph, robustStep (dropOther o) snips acc pt ph =
        robustStep o snips acc pt ph := by
      intro acc pt ph
      unfold robustStep
      rw [process_snippet_drop_other]
    unfold insert_code_snippets_robust
    simp only [hstep]

/-- Claim C9: assembling is deterministic — a second call of
`insert_code_snippets_robust` on identical (template, fragment-map) inputs,
started from whatever console-log state the first call left behind, returns
byte-identical text, and both calls agree with the pure assembly
function. -/
theorem c9_deterministic_assembly (o : ParseOracle) (base_code : Str) (snips : Snippets)
    (log0 : List Str) :
    (insert_code_snippets_robust_logged o base_code snips log0).1 =
      (insert_code_snippets_robust_logged o base_code snips
        (insert_code_snippets_robust_logged o base_code snips log0).2).1 ∧
    (insert_code_snippets_robust_logged o base_code snips log0).1 =
      insert_code_snippets_robust o base_code snips := by
  constructor
  · rw [logged_value_eq, logged_value_eq]
  · exact logged_value_eq o base_code snips log0

/-- Claim C3, counterexample: `str.replace` can re-form a marker across the
seam of the removed occurrence.  The template
`"# {{INSERT_OBJ" + marker + "ECTIVE_FUNCTION}}"` contains the objective
marker exactly once; with an empty fragment map the occurrence is replaced
by the empty string and the surrounding text joins up into the marker
itself, so the returned program still contains a placeholder marker that
was present in the template. -/
theorem c3_counterexample :
    strContains (S "# \x7b\x7bINSERT_OBJ" ++ ph_objective ++ S "ECTIVE_FUNCTION\x7d\x7d")
      ph_objective = true ∧
    insert_code_snippets_robust ⟨fun _ => none, fun _ => false⟩
      (S "# \x7b\x7bINSERT_OBJ" ++ ph_objective ++ S "ECTIVE_FUNCTION\x7d\x7d")
      ⟨none, none⟩ = ph_objective ∧
    strContains (insert_code_snippets_robust ⟨fun _ => none, fun _ => false⟩
      (S "# \x7b\x7bINSERT_OBJ" ++ ph_objective ++ S "ECTIVE_FUNCTION\x7d\x7d")
      ⟨none, none⟩) ph_objective = true := by
  refine ⟨by decide, by decide, by decide⟩

/-- Claim C3 (amended): on a template whose markers each occupy one line of
their own after whitespace indentation and whose remaining lines are
marker-free, and for replacement texts and hoisted classes that do not
themselves contain a marker, every placeholder marker is absent from the
assembled program; each marker line `ind ++ marker` is substituted by
`ind ++ r` where `r` is the processed fragment body — the empty string for
an empty or missing fragment — and all template text outside the marker
lines and the hoist point is preserved verbatim.  (The counterexample
shows the marker-freedom provisos cannot be dropped: adjacent template
text can re-form a marker.) -/
theorem c3_amended_placeholder_coverage
    (o : ParseOracle) (snips : Snippets)
    (pre mid post : List Str) (ind1 ind2 : Str)
    (r1 r2 : Str) (cls1 cls2 : List Str)
    (hrep1 : robust_replacement o snips (S "OBJECTIVE_FUNCTION") = (r1, cls1))
    (hrep2 : robust_replacement o snips (S "OPTIMIZATION_ALGORITHM") = (r2, cls2))
    (hws1 : ∀ c ∈ ind1, isPySpace c = true) (hws2 : ∀ c ∈ ind2, isPySpace c = true)
    (hfree1 : ∀ l ∈ pre ++ mid ++ post, strContains l ph_objective = false)
    (hfree2 : ∀ l ∈ pre ++ mid ++ post, strContains l ph_algorithm = false)
    (hr1a : strContains r1 ph_objective = false)
    (hr1b : strContains r1 ph_algorithm = false)
    (hr2a : strContains r2 ph_objective = false)
    (hr2b : strContains r2 ph_algorithm = false)
    (hcls : ∀ x ∈ cls1 ++ cls2, strContains x ph_objective = false ∧
      strContains x ph_algorithm = false) :
    insert_code_snippets_robust o (joinLines (template_lines pre mid post ind1 ind2)) snips =
      (if cls1 ++ cls2 = []
       then joinLines (pre ++ [ind1 ++ r1] ++ mid ++ [ind2 ++ r2] ++ post)
       else insert_classes_at_proper_location
         (joinLines (pre ++ [ind1 ++ r1] ++ mid ++ [ind2 ++ r2] ++ post)) (cls1 ++ cls2)) ∧
    strContains (insert_code_snippets_robust o
      (joinLines (template_lines pre mid post ind1 ind2)) snips) ph_objective = false ∧
    strContains (insert_code_snippets_robust o
      (joinLines (template_lines pre mid post ind1 ind2)) snips) ph_algorithm = false := by
  obtain ⟨hsh1, hhash, hnl1, hne1⟩ := ph_objective_shape
  obtain ⟨hsh2, _, hnl2, hne2⟩ := ph_algorithm_shape
  have hshape := robust_steps_on_template o snips pre mid post ind1 ind2 r1 r2 cls1 cls2
    hrep1 hrep2 hws1 hws2 hfree1 hfree2 hr1b
  have hres : insert_code_snippets_robust o
      (joinLines (template_lines pre mid post ind1 ind2)) snips =
      (if cls1 ++ cls2 = []
       then joinLines (pre ++ [ind1 ++ r1] ++ mid ++ [ind2 ++ r2] ++ post)
       else insert_classes_at_proper_location
         (joinLines (pre ++ [ind1 ++ r1] ++ mid ++ [ind2 ++ r2] ++ post)) (cls1 ++ cls2)) := by
    simp only [insert_code_snippets_robust]
    rw [hshape]
    by_cases hcl : cls1 ++ cls2 = []
    · rw [if_pos hcl]
      simp [hcl]
    · rw [if_neg hcl]
      simp only []
      rw [if_pos (by simpa using hcl)]
  refine ⟨hres, ?_, ?_⟩
  all_goals rw [hres]
  -- every line of the substituted body is marker-free
  · have hbody : ∀ x ∈ pre ++ [ind1 ++ r1] ++ mid ++ [ind2 ++ r2] ++ post,
        strContains x ph_objective = false := by
      intro x hx
      rcases List.mem_append.mp hx with h | h
      · rcases List.mem_append.mp h with h' | h'
        · rcases List.mem_append.mp h' with h'' | h''
          · rcases List.mem_append.mp h'' with h3 | h3
            · exact hfree1 x (List.mem_append.mpr (Or.inl (List.mem_append.mpr (Or.inl h3))))
            · rw [List.mem_singleton.mp h3, hsh1]
              exact not_contains_ws_append hhash (hsh1 ▸ hr1a) ind1 hws1
          · exact hfree1 x (List.mem_append.mpr (Or.inl (List.mem_append.mpr (Or.inr h''))))
        · rw [List.mem_singleton.mp h', hsh1]
          exact not_contains_ws_append hhash (hsh1 ▸ hr2a) ind2 hws2
      · exact hfree1 x (List.mem_append.mpr (Or.inr h))
    by_cases hcl : cls1 ++ cls2 = []
    · rw [if_pos hcl]
      exact not_contains_joinLines hne1 hnl1 _ hbody
    · rw [if_neg hcl]
      apply insert_classes_not_contains hne1 hnl1
      · exact not_contains_joinLines hne1 hnl1 _ hbody
      · intro x hx
        exact (hcls x hx).1
  · have hbody : ∀ x ∈ pre ++ [ind1 ++ r1] ++ mid ++ [ind2 ++ r2] ++ post,
        strContains x ph_algorithm = false := by
      intro x hx
      rcases List.mem_append.mp hx with h | h
      · rcases List.mem_append.mp h with h' | h'
        · rcases List.mem_append.mp h' with h'' | h''
          · rcases List.mem_append.mp h'' with h3 | h3
            · exact hfree2 x (List.mem_append.mpr (Or.inl (List.mem_append.mpr (Or.inl h3))))
            · rw [List.mem_singleton.mp h3, hsh2]
              exact not_contains_ws_append hhash (hsh2 ▸ hr1b) ind1 hws1
          · exact hfree2 x (List.mem_append.mpr (Or.inl (List.mem_append.mpr (Or.inr h''))))
        · rw [List.mem_singleton.mp h', hsh2]
          exact not_contains_ws_append hhash (hsh2 ▸ hr2b) ind2 hws2
      · exact hfree2 x (List.mem_append.mpr (Or.inr h))
    by_cases hcl : cls1 ++ cls2 = []
    · rw [if_pos hcl]
      exact not_contains_joinLines hne2 hnl2 _ hbody
    · rw [if_neg hcl]
      apply insert_classes_not_contains hne2 hnl2
      · exact not_contains_joinLines hne2 hnl2 _ hbody
      · intro x hx
        exact (hcls x hx).2

/-- Claim C3, witness for the amended theorem: a small template of the
shipped shape with both fragments missing — both markers are deleted and
everything else survives unchanged. -/
theorem c3_amended_placeholder_coverage_witness :
    insert_code_snippets_robust ⟨fun _ => none, fun _ => false⟩
      (joinLines (template_lines [S "import os"] [] [S "x = 1"] (S "    ") (S "  ")))
      ⟨none, none⟩ =
      joinLines [S "import os", S "    ", S "  ", S "x = 1"] ∧
    strContains (insert_code_snippets_robust ⟨fun _ => none, fun _ => false⟩
      (joinLines (template_lines [S "import os"] [] [S "x = 1"] (S "    ") (S "  ")))
      ⟨none, none⟩) ph_objective = false ∧
    strContains (insert_code_snippets_robust ⟨fun _ => none, fun _ => false⟩
      (joinLines (template_lines [S "import os"] [] [S "x = 1"] (S "    ") (S "  ")))
      ⟨none, none⟩) ph_algorithm = false := by
  have H := c3_amended_placeholder_coverage ⟨fun _ => none, fun _ => false⟩ ⟨none, none⟩
    [S "import os"] [] [S "x = 1"] (S "    ") (S "  ") [] [] [] []
    rfl rfl (by decide) (by decide) (by decide) (by decide)
    (by decide) (by decide) (by decide) (by decide) (by simp)
  exact ⟨by simpa using H.1, H.2.1, H.2.2⟩

/-- Claim C4, counterexample: the fallback does not always strip `def`
header lines.  On the malformed fragment
`"class A:\n    pass(\ndef g():\n    return 1"` (a `SyntaxError`, so the
text fallback runs) the top-level `def g():` line terminates the class
block inside `_extract_from_text` and is appended to the method body
instead of being stripped. -/
theorem c4_counterexample :
    process_snippet ⟨fun _ => none, fun _ => false⟩
      (S "class A:\n    pass(\ndef g():\n    return 1") (S "OBJECTIVE_FUNCTION") =
      .ok (S "        def g():\n            return 1", [S "class A:\n    pass("]) ∧
    (splitNl (S "        def g():\n            return 1")).any
      (fun l => strStarts (pyStrip l) (S "def ")) = true := by
  constructor
  · rfl
  · decide

/-- Claim C4 (amended): the assembler never lets a fragment fault escape.
When AST parsing fails (`SyntaxError`), `_process_snippet` returns the
`_extract_from_text` result instead of raising; when any other internal
fault occurs, the loop's `except` branch splices the `_simple_indent_fix`
text.  Fallback output is reindented so every non-blank line starts with
eight spaces; `def` header lines are stripped whenever the fragment
contains no `class` line (a `def` line that terminates a class block is
kept — see the counterexample), and `_simple_indent_fix` always strips
both `def` and `class` header lines. -/
theorem c4_amended_fallback_safety :
    (∀ (o : ParseOracle) (s pt : Str), o.procFault s = false →
      o.parse (fix_docstring_indentation (normalize_code s)) = none →
      process_snippet o s pt =
        .ok (extract_from_text (fix_docstring_indentation (normalize_code s)) pt)) ∧
    (∀ (s pt : Str), isMethodPoint pt = true →
      ∀ l ∈ splitNl (extract_from_text s pt).1, l = [] ∨ strStarts l (spaces 8) = true) ∧
    (∀ (s pt : Str), isMethodPoint pt = true →
      (∀ l ∈ splitNl s, strStarts (pyStrip l) (S "class ") = false) →
      extract_from_text s pt =
        (add_method_indent (pyStrip (joinLines ((splitNl s).filter
          (fun l => !strStarts (pyStrip l) (S "def "))))), [])) ∧
    (∀ (code pt : Str), isMethodPoint pt = true →
      ∀ l ∈ splitNl (simple_indent_fix code pt), l = [] ∨
        (strStarts l (spaces 8) = true ∧ strStarts (pyStrip l) (S "def ") = false ∧
         strStarts (pyStrip l) (S "class ") = false)) ∧
    (∀ (o : ParseOracle) (snips : Snippets) (code : Str) (classes : List Str) (pt ph : Str),
      strContains code ph = true → truthy (snips.get pt) = true →
      o.procFault ((snips.get pt).getD []) = true →
      robustStep o snips (code, classes) pt ph =
        (pyRep code ph (simple_indent_fix ((snips.get pt).getD []) pt), classes)) := by
  refine ⟨?_, ?_, ?_, ?_, ?_⟩
  · intro o s pt hpf hparse
    unfold process_snippet
    rw [if_neg (by simp [hpf])]
    show (match o.parse (fix_docstring_indentation (normalize_code s)) with
          | some tree => Except.ok (extract_from_ast tree pt)
          | none => Except.ok (extract_from_text (fix_docstring_indentation
              (normalize_code s)) pt)) = _
    rw [hparse]
  · intro s pt hpt l hl
    simp only [extract_from_text, hpt, if_true, reduceIte] at hl
    exact add_method_indent_lines _ l hl
  · intro s pt hpt hno
    unfold extract_from_text
    rw [ext_fold_no_class (splitNl s) [] hno]
    simp [hpt]
  · intro code pt hpt l hl
    simp only [simple_indent_fix, hpt, if_true, reduceIte] at hl
    by_cases hemp : pyStrip code = []
    · rw [if_pos hemp] at hl
      simp only [splitNl, List.mem_singleton] at hl
      exact Or.inl hl
    · rw [if_neg hemp] at hl
      set lines := splitNl (pyStrip code) with hlines
      set filtered := lines.filter (fun l =>
        ¬ strStarts (pyStrip l) (S "def ") ∧ ¬ strStarts (pyStrip l) (S "class ")) with hfil
      have hnlmap : ∀ x ∈ filtered.map (fun line =>
          if ¬ pyStrip line = [] then spaces 8 ++ pyLstrip line else []), '\n' ∉ x := by
        intro x hx
        obtain ⟨y, hy, hxy⟩ := List.mem_map.mp hx
        subst hxy
        have hy' : y ∈ lines := List.mem_of_mem_filter hy
        have hnl : '\n' ∉ y := nlFree_of_mem_splitNl _ y hy'
        split
        · intro hmem
          rcases List.mem_append.mp hmem with h | h
          · simp [spaces] at h
          · exact nlFree_pyLstrip hnl h
        · simp
      by_cases hfe : filtered.map (fun line =>
          if ¬ pyStrip line = [] then spaces 8 ++ pyLstrip line else []) = []
      · rw [hfe] at hl
        simp only [joinLines, splitNl, List.mem_singleton] at hl
        exact Or.inl hl
      · rw [splitNl_joinLines hnlmap hfe] at hl
        obtain ⟨y, hy, hxy⟩ := List.mem_map.mp hl
        subst hxy
        split
        · right
          have h2 := List.of_mem_filter hy
          have h3 : ¬ strStarts (pyStrip y) (S "def ") = true ∧
              ¬ strStarts (pyStrip y) (S "class ") = true := by simpa using h2
          refine ⟨List.isPrefixOf_iff_prefix.mpr (List.prefix_append _ _), ?_, ?_⟩
          · rw [show pyStrip (spaces 8 ++ pyLstrip y) = pyStrip y from by
              rw [pyStrip_spaces_append, pyStrip_lstrip]]
            simpa using h3.1
          · rw [show pyStrip (spaces 8 ++ pyLstrip y) = pyStrip y from by
              rw [pyStrip_spaces_append, pyStrip_lstrip]]
            simpa using h3.2
        · exact Or.inl rfl
  · intro o snips code classes pt ph hc ht hpf
    unfold robustStep process_snippet
    rw [if_pos ⟨hc, ht⟩, if_pos hpf]

/-- Claim C4, witness: the amended theorem instantiated on concrete
fragments — a `SyntaxError` fragment goes through the text fallback, a
class-free fragment has its `def` header stripped and its body reindented,
and a processing fault falls back to `_simple_indent_fix`. -/
theorem c4_amended_fallback_safety_witness :
    process_snippet ⟨fun _ => none, fun _ => false⟩ (S "def f(:\n    return 1")
      (S "OBJECTIVE_FUNCTION") =
      .ok (extract_from_text (fix_docstring_indentation
        (normalize_code (S "def f(:\n    return 1"))) (S "OBJECTIVE_FUNCTION")) ∧
    extract_from_text (S "def f():\n    return 1\nx = 2") (S "OBJECTIVE_FUNCTION") =
      (add_method_indent (pyStrip (joinLines
        ((splitNl (S "def f():\n    return 1\nx = 2")).filter
          (fun l => !strStarts (pyStrip l) (S "def "))))), []) ∧
    robustStep ⟨fun _ => none, fun _ => true⟩ ⟨some (S "oops"), none⟩
      (ph_objective, []) (S "OBJECTIVE_FUNCTION") ph_objective =
      (pyRep ph_objective ph_objective
        (simple_indent_fix (S "oops") (S "OBJECTIVE_FUNCTION")), []) := by
  refine ⟨?_, ?_, ?_⟩
  · exact c4_amended_fallback_safety.1 ⟨fun _ => none, fun _ => false⟩
      (S "def f(:\n    return 1") (S "OBJECTIVE_FUNCTION") rfl rfl
  · exact c4_amended_fallback_safety.2.2.1 (S "def f():\n    return 1\nx = 2")
      (S "OBJECTIVE_FUNCTION") (by decide) (by decide)
  · exact c4_amended_fallback_safety.2.2.2.2 ⟨fun _ => none, fun _ => true⟩
      ⟨some (S "oops"), none⟩ ph_objective [] (S "OBJECTIVE_FUNCTION") ph_objective
      (contains_refl ph_objective) (by decide) rfl

theorem flatten_singletons {α : Type} :
    ∀ (u : List α), (u.map (fun l => [l])).flatten = u := by
  intro u
  induction u with
  | nil => rfl
  | cons a t ih => simp [ih]

theorem count_one_of_nodup_mem :
    ∀ (l : List Str) (c : Str), l.Nodup → c ∈ l → l.count c = 1 := by
  intro l
  induction l with
  | nil => intro c _ hc; simp at hc
  | cons a t ih =>
    intro c hnd hc
    rcases List.mem_cons.mp hc with h | h
    · subst h
      have hna : c ∉ t := (List.nodup_cons.mp hnd).1
      rw [List.count_cons_self, List.count_eq_zero_of_not_mem hna]
    · have hne : ¬ a = c := by
        intro he
        subst he
        exact (List.nodup_cons.mp hnd).1 h
      rw [List.count_cons_of_ne (by simpa using fun he => hne he.symm),
        ih c (List.nodup_cons.mp hnd).2 h]

/-- Claim C5: on a template whose lines before the first
`def`/`class`-opening line contain no declarations (and, in the shipped
templates, hold all the top-level imports), every standalone class
declaration extracted from any fragment is removed from its insertion
point and hoisted into one block — a blank line, the class texts in
fragment-processing order (objective fragment first), a blank line —
spliced immediately before that first declaration line and hence before
every placeholder-derived body; under no-duplication each hoisted class
text occurs exactly once among the resulting lines. -/
theorem c5_class_hoisting
    (o : ParseOracle) (snips : Snippets)
    (u w mid post : List Str) (d : Str) (ind1 ind2 : Str)
    (r1 r2 : Str) (cls1 cls2 : List Str)
    (hrep1 : robust_replacement o snips (S "OBJECTIVE_FUNCTION") = (r1, cls1))
    (hrep2 : robust_replacement o snips (S "OPTIMIZATION_ALGORITHM") = (r2, cls2))
    (hws1 : ∀ c ∈ ind1, isPySpace c = true) (hws2 : ∀ c ∈ ind2, isPySpace c = true)
    (hfree1 : ∀ l ∈ (u ++ [d] ++ w) ++ mid ++ post, strContains l ph_objective = false)
    (hfree2 : ∀ l ∈ (u ++ [d] ++ w) ++ mid ++ post, strContains l ph_algorithm = false)
    (hr1b : strContains r1 ph_algorithm = false)
    (hu_decl : ∀ l ∈ u, is_def_or_class_line l = false)
    (hd : is_def_or_class_line d = true)
    (hnlu : ∀ l ∈ u, '\n' ∉ l) (hnld : '\n' ∉ d)
    (hcls_ne : ¬ cls1 ++ cls2 = []) :
    insert_code_snippets_robust o
        (joinLines (template_lines (u ++ [d] ++ w) mid post ind1 ind2)) snips =
      joinLines (u ++ ([[]] ++ (cls1 ++ cls2) ++ [[]]) ++ d ::
        ((w ++ [ind1 ++ r1] ++ mid ++ [ind2 ++ r2] ++ post).map splitNl).flatten) ∧
    (∀ c, c ∈ cls1 ++ cls2 → c ∉ u → ¬ c = [] →
      c ∉ d :: ((w ++ [ind1 ++ r1] ++ mid ++ [ind2 ++ r2] ++ post).map splitNl).flatten →
      (cls1 ++ cls2).Nodup →
      (u ++ ([[]] ++ (cls1 ++ cls2) ++ [[]]) ++ d ::
        ((w ++ [ind1 ++ r1] ++ mid ++ [ind2 ++ r2] ++ post).map splitNl).flatten).count c
        = 1) := by
  have hshape := robust_steps_on_template o snips (u ++ [d] ++ w) mid post ind1 ind2
    r1 r2 cls1 cls2 hrep1 hrep2 hws1 hws2 hfree1 hfree2 hr1b
  constructor
  · simp only [insert_code_snippets_robust]
    rw [hshape]
    rw [if_pos (by simpa using hcls_ne)]
    -- the body's line list starts with the untouched u and d
    have hlines : splitNl (joinLines ((u ++ [d] ++ w) ++ [ind1 ++ r1] ++ mid ++
        [ind2 ++ r2] ++ post)) =
        u ++ d :: ((w ++ [ind1 ++ r1] ++ mid ++ [ind2 ++ r2] ++ post).map splitNl).flatten := by
      rw [splitNl_joinLines_flat _ (by simp)]
      have hu : (u.map splitNl).flatten = u := by
        rw [List.map_congr_left (fun l hl => splitNl_nlFree (hnlu l hl))]
        exact flatten_singletons u
      have hrearrange : (u ++ [d] ++ w) ++ [ind1 ++ r1] ++ mid ++ [ind2 ++ r2] ++ post =
          u ++ [d] ++ (w ++ [ind1 ++ r1] ++ mid ++ [ind2 ++ r2] ++ post) := by
        simp [List.append_assoc]
      rw [hrearrange]
      simp only [List.map_append, List.flatten_append, hu, List.map_cons, List.map_nil,
        List.flatten_cons, List.flatten_nil, splitNl_nlFree hnld]
      simp [List.append_assoc]
    unfold insert_classes_at_proper_location
    rw [hlines]
    rw [if_pos (by
      apply List.any_eq_true.mpr
      exact ⟨d, by simp, hd⟩)]
    rw [show u ++ d :: ((w ++ [ind1 ++ r1] ++ mid ++ [ind2 ++ r2] ++ post).map
        splitNl).flatten = u ++ d :: ((w ++ [ind1 ++ r1] ++ mid ++ [ind2 ++ r2] ++
        post).map splitNl).flatten from rfl]
    rw [first_pass_found u d _ hu_decl hd]
    congr 1
    simp only [insert_block]
    rw [if_pos (by simpa using hcls_ne)]
  · intro c hc hcu hcnil hcrest hnd
    have h1 : u.count c = 0 := List.count_eq_zero_of_not_mem hcu
    have h2 : (d :: ((w ++ [ind1 ++ r1] ++ mid ++ [ind2 ++ r2] ++
        post).map splitNl).flatten).count c = 0 :=
      List.count_eq_zero_of_not_mem hcrest
    have h3 : ([[]] : List Str).count c = 0 :=
      List.count_eq_zero_of_not_mem (by simpa using hcnil)
    have h4 : (cls1 ++ cls2).count c = 1 := count_one_of_nodup_mem (cls1 ++ cls2) c hnd hc
    simp only [List.count_append, h1, h2, h3, h4]

/-- Claim C5, witness: a miniature of the shipped template (imports, one
class with two placeholder-bearing methods) and a malformed class fragment
— the class is extracted by the text fallback, removed from the insertion
point, and hoisted just before `class network:`, after the import line. -/
theorem c5_class_hoisting_witness :
    insert_code_snippets_robust ⟨fun _ => none, fun _ => false⟩
        (joinLines (template_lines
          ([S "import os", S ""] ++ [S "class network:"] ++ [S "    def targetfunction(self):"])
          [S "    def solve_optimization(self):"] [] (S "        ") (S "        ")))
        ⟨some (S "class A:\n    x = ("), none⟩ =
      joinLines ([S "import os", S ""] ++
        ([[]] ++ ([S "class A:\n    x = ("] ++ []) ++ [[]]) ++
        (S "class network:") ::
        (([S "    def targetfunction(self):"] ++ [S "        " ++ ([] : Str)] ++
          [S "    def solve_optimization(self):"] ++ [S "        " ++ ([] : Str)] ++
          []).map splitNl).flatten) ∧
    ([S "import os", S ""] ++
        ([[]] ++ ([S "class A:\n    x = ("] ++ []) ++ [[]]) ++
        (S "class network:") ::
        (([S "    def targetfunction(self):"] ++ [S "        " ++ ([] : Str)] ++
          [S "    def solve_optimization(self):"] ++ [S "        " ++ ([] : Str)] ++
          []).map splitNl).flatten).count (S "class A:\n    x = (") = 1 := by
  have H := c5_class_hoisting ⟨fun _ => none, fun _ => false⟩
    ⟨some (S "class A:\n    x = ("), none⟩
    [S "import os", S ""] [S "    def targetfunction(self):"]
    [S "    def solve_optimization(self):"] []
    (S "class network:") (S "        ") (S "        ") [] []
    [S "class A:\n    x = ("] []
    rfl rfl (by decide) (by decide) (by decide) (by decide) (by decide)
    (by decide) (by decide) (by decide) (by decide) (by simp)
  exact ⟨H.1, H.2 (S "class A:\n    x = (") (by decide) (by decide) (by decide)
    (by decide) (by decide)⟩

/-- Claim C1, counterexample: neither decision path is confined to the four
kinds `TERMINATE_SUCCESS`/`TERMINATE_FAILURE`/`NEED_CORRECTION`/
`UPDATE_SOLVER`.  The mock path returns `CONTINUE_OPTIMIZATION` on a
successful execution with no optimization result, and the LLM parser
returns whatever token follows `DECISION:` verbatim. -/
theorem c1_counterexample :
    (mock_decision ⟨fun _ => [], fun _ => []⟩ 1 5 (S "test")
      (some ⟨true, [], [], 0⟩) none none).decision = S "CONTINUE_OPTIMIZATION" ∧
    S "CONTINUE_OPTIMIZATION" ∉ [S "TERMINATE_SUCCESS", S "TERMINATE_FAILURE",
      S "NEED_CORRECTION", S "UPDATE_SOLVER"] ∧
    (parse_decision_result (S "DECISION: RETRY_LATER")).decision = S "RETRY_LATER" ∧
    S "RETRY_LATER" ∉ [S "TERMINATE_SUCCESS", S "TERMINATE_FAILURE",
      S "NEED_CORRECTION", S "UPDATE_SOLVER"] := by
  refine ⟨rfl, by decide, rfl, by decide⟩

/-- Claim C1 (amended): the mock decision path always returns exactly one
of `TERMINATE_SUCCESS`, `TERMINATE_FAILURE`, `NEED_CORRECTION`,
`CONTINUE_OPTIMIZATION` (never `UPDATE_SOLVER`); the LLM-text parser
defaults to `CONTINUE_OPTIMIZATION` when no `DECISION:` line is present
(and otherwise returns the labelled token, unrestricted); and the round
loop of `solve_optimization_problem` terminates within `max_iterations`
rounds for every input: its result is independent of any sufficient fuel
and always carries a termination reason. -/
theorem c1_amended_decision_totality :
    (∀ (fmt : FloatFmt) (ic mi : Nat) (ui : Str) (er : Option ExecDict)
        (opt : Option OptResult) (ei : Option Str),
      (mock_decision fmt ic mi ui er opt ei).decision ∈
        [S "TERMINATE_SUCCESS", S "TERMINATE_FAILURE", S "NEED_CORRECTION",
         S "CONTINUE_OPTIMIZATION"]) ∧
    (∀ text : Str, (∀ l ∈ splitNl (pyStrip text),
        strStarts (pyStrip l) (S "DECISION:") = false) →
      (parse_decision_result text).decision = S "CONTINUE_OPTIMIZATION") ∧
    (∀ (o : PureOracles) (maxIter f g : Nat) (ws : WorkflowState) (cur : RoundResult),
      0 < f → maxIter < ws.current_iteration + f →
      0 < g → maxIter < ws.current_iteration + g →
      decision_loop o maxIter f ws cur = decision_loop o maxIter g ws cur ∧
      (decision_loop o maxIter f ws cur).termination_reason.isSome = true) := by
  refine ⟨?_, ?_, ?_⟩
  · intro fmt ic mi ui er opt ei
    have hq : ∀ aar suc objv, (quality_branch fmt ic ui ⟨aar, suc, objv⟩).decision ∈
        [S "TERMINATE_SUCCESS", S "TERMINATE_FAILURE", S "NEED_CORRECTION",
         S "CONTINUE_OPTIMIZATION"] := by
      intro aar suc objv
      cases objv <;> cases suc <;> simp only [quality_branch] <;> split <;> simp
    unfold mock_decision
    split
    · simp
    · split
      · simp
      · split
        · simp
        · cases opt with
          | none => simp
          | some o' =>
            obtain ⟨aar, suc, objv⟩ := o'
            cases aar with
            | none => exact hq none suc objv
            | some allAlg =>
              obtain ⟨ares⟩ := allAlg
              cases ares with
              | none => exact hq (some ⟨none⟩) suc objv
              | some entries =>
                show (multi_alg_branch ic entries).decision ∈ _
                simp only [multi_alg_branch]
                split
                · split <;> simp
                · split <;> simp
  · intro text hno
    unfold parse_decision_result
    rw [parse_fold_decision _ _ hno]
  · intro o maxIter f g ws cur hf hfi hg hgi
    exact ⟨decision_loop_congr o maxIter f g ws cur hf hfi hg hgi,
      decision_loop_reason_isSome o maxIter f ws cur hf hfi⟩

/-- Claim C1, witness for the amended theorem at concrete inputs. -/
theorem c1_amended_decision_totality_witness :
    (mock_decision ⟨fun _ => [], fun _ => []⟩ 2 5 (S "u") none none none).decision ∈
      [S "TERMINATE_SUCCESS", S "TERMINATE_FAILURE", S "NEED_CORRECTION",
       S "CONTINUE_OPTIMIZATION"] ∧
    (parse_decision_result (S "REASON: unclear")).decision = S "CONTINUE_OPTIMIZATION" ∧
    (decision_loop ⟨⟨false, none, none⟩, fun _ _ => ⟨S "NEED_CORRECTION", [], [], []⟩,
        fun _ r => r, fun _ => ⟨false, none, none⟩⟩ 3 4 ⟨1, 3, none, none⟩
        ⟨false, none, none⟩ =
      decision_loop ⟨⟨false, none, none⟩, fun _ _ => ⟨S "NEED_CORRECTION", [], [], []⟩,
        fun _ r => r, fun _ => ⟨false, none, none⟩⟩ 3 99 ⟨1, 3, none, none⟩
        ⟨false, none, none⟩ ∧
      (decision_loop ⟨⟨false, none, none⟩, fun _ _ => ⟨S "NEED_CORRECTION", [], [], []⟩,
        fun _ r => r, fun _ => ⟨false, none, none⟩⟩ 3 4 ⟨1, 3, none, none⟩
        ⟨false, none, none⟩).termination_reason.isSome = true) := by
  refine ⟨?_, ?_, ?_⟩
  · exact c1_amended_decision_totality.1 ⟨fun _ => [], fun _ => []⟩ 2 5 (S "u") none none none
  · exact c1_amended_decision_totality.2.1 (S "REASON: unclear") (by decide)
  · exact c1_amended_decision_totality.2.2 _ 3 4 99 ⟨1, 3, none, none⟩ ⟨false, none, none⟩
      (by decide) (by decide) (by decide) (by decide)

/-- Claim C2: when no round ever satisfies `_should_terminate` (no terminal
decision and no auto-accept), the loop of `solve_optimization_problem` runs
out its iteration budget and the workflow is force-terminated with
termination reason `TERMINATE_MAX_ITERATIONS`; the overall success flag is
then true iff the last recorded execution result had `success == true`
(the `hlink` hypothesis is the collaborator invariant that a round's
`success` key mirrors its recorded execution result's). -/
theorem c2_max_iterations (o : PureOracles) (maxIter : Nat)
    (hmax : 1 ≤ maxIter)
    (hnt : ∀ i r, should_terminate (o.make_decision i r)
      (execute_manager_decision o (o.make_decision i r) r) = false)
    (hlink : (round_chain o (maxIter - 1)).success =
      ((round_chain o (maxIter - 1)).execution_result.map
        (fun er => er.success)).getD false) :
    (solve_optimization_problem o maxIter).termination_reason
        = some (S "TERMINATE_MAX_ITERATIONS") ∧
    ((solve_optimization_problem o maxIter).success = true ↔
      ∃ er, (round_chain o (maxIter - 1)).execution_result = some er ∧
        er.success = true) := by
  obtain ⟨ht, hf⟩ := decision_loop_exhaust o maxIter hnt (maxIter + 1)
    ⟨1, maxIter, none, none⟩ o.initial_round
    (by omega) (show maxIter < 1 + (maxIter + 1) by omega) (le_refl 1) hmax rfl
  have hs : solve_optimization_problem o maxIter =
      generate_final_result (decision_loop o maxIter (maxIter + 1)
        ⟨1, maxIter, none, none⟩ o.initial_round) := rfl
  have h1 : (S "TERMINATE_MAX_ITERATIONS" : Str) ≠ S "TERMINATE_SUCCESS" := by decide
  have h2 : (S "TERMINATE_MAX_ITERATIONS" : Str) ≠ S "TERMINATE_FAILURE" := by decide
  rw [hs]
  constructor
  · simp only [generate_final_result]
    exact ht
  · have hsucc : (generate_final_result (decision_loop o maxIter (maxIter + 1)
        ⟨1, maxIter, none, none⟩ o.initial_round)).success =
        (round_chain o (maxIter - 1)).success := by
      simp only [generate_final_result, ht, hf]
      simp [h1, h2]
    rw [hsucc, hlink]
    cases hor : (round_chain o (maxIter - 1)).execution_result with
    | none => simp
    | some er => simp

/-- Claim C2, witness: a collaborator that always answers `NEED_CORRECTION`
with a failing corrected round exhausts `max_iterations = 3` and the final
result is unsuccessful. -/
theorem c2_max_iterations_witness :
    (1 : Nat) ≤ 3 ∧
    ((solve_optimization_problem
        ⟨⟨false, some ⟨false, [], [], 0⟩, some (S "x")⟩,
         fun _ _ => ⟨S "NEED_CORRECTION", [], [], []⟩,
         fun _ _ => ⟨false, some ⟨false, [], [], 0⟩, some (S "x")⟩,
         fun _ => ⟨false, some ⟨false, [], [], 0⟩, some (S "x")⟩⟩ 3).termination_reason
        = some (S "TERMINATE_MAX_ITERATIONS") ∧
      ((solve_optimization_problem
        ⟨⟨false, some ⟨false, [], [], 0⟩, some (S "x")⟩,
         fun _ _ => ⟨S "NEED_CORRECTION", [], [], []⟩,
         fun _ _ => ⟨false, some ⟨false, [], [], 0⟩, some (S "x")⟩,
         fun _ => ⟨false, some ⟨false, [], [], 0⟩, some (S "x")⟩⟩ 3).success = true ↔
        ∃ er, (round_chain
        ⟨⟨false, some ⟨false, [], [], 0⟩, some (S "x")⟩,
         fun _ _ => ⟨S "NEED_CORRECTION", [], [], []⟩,
         fun _ _ => ⟨false, some ⟨false, [], [], 0⟩, some (S "x")⟩,
         fun _ => ⟨false, some ⟨false, [], [], 0⟩, some (S "x")⟩⟩ (3 - 1)).execution_result
          = some er ∧ er.success = true)) :=
  ⟨by decide, c2_max_iterations
    ⟨⟨false, some ⟨false, [], [], 0⟩, some (S "x")⟩,
     fun _ _ => ⟨S "NEED_CORRECTION", [], [], []⟩,
     fun _ _ => ⟨false, some ⟨false, [], [], 0⟩, some (S "x")⟩,
     fun _ => ⟨false, some ⟨false, [], [], 0⟩, some (S "x")⟩⟩ 3
    (by decide) (fun i r => rfl) rfl⟩

/-- Claim C8: an `Exception`-kind fault raised inside a round is caught at
the per-round boundary and becomes a returned dictionary with
`success = False` whose `error` carries the fault text; a fault that
reaches the orchestrator boundary of `solve_optimization_problem` is
converted into the `工作流程异常` failure dictionary, never re-raised; and
a fault-free body's result passes through unchanged. -/
theorem c8_orchestrator_boundary :
    (∀ (pm m : Str),
      (round_boundary pm (.error (.exc m))).success = false ∧
      (round_boundary pm (.error (.exc m))).error = some (pm ++ m) ∧
      strContains (pm ++ m) m = true) ∧
    (∀ (o : ExcOracles) (maxIter : Nat) (m : Str),
      solve_body o maxIter = .error (.exc m) →
      (solve_with_boundary o maxIter).success = false ∧
      (solve_with_boundary o maxIter).error = some (S "工作流程异常: " ++ m) ∧
      strContains (S "工作流程异常: " ++ m) m = true) ∧
    (∀ (o : ExcOracles) (maxIter : Nat) (r : FinalResult),
      solve_body o maxIter = .ok r → solve_with_boundary o maxIter = r) := by
  refine ⟨?_, ?_, ?_⟩
  · intro pm m
    exact ⟨rfl, rfl, contains_append_right pm (contains_refl m)⟩
  · intro o maxIter m h
    unfold solve_with_boundary
    rw [h]
    exact ⟨rfl, rfl, contains_append_right _ (contains_refl m)⟩
  · intro o maxIter r h
    unfold solve_with_boundary
    rw [h]

/-- Claim C8, witness: a faulting round, a faulting manager call under
`max_iterations = 3`, and a fault-free zero-iteration run. -/
theorem c8_orchestrator_boundary_witness :
    ((round_boundary (S "单轮协作异常: ") (.error (.exc (S "boom")))).success = false ∧
     (round_boundary (S "单轮协作异常: ") (.error (.exc (S "boom")))).error
        = some (S "单轮协作异常: " ++ S "boom") ∧
     strContains (S "单轮协作异常: " ++ S "boom") (S "boom") = true) ∧
    ((solve_with_boundary
        ⟨.ok ⟨true, some ⟨true, [], [], 0⟩, none⟩,
         fun _ _ => .error (.exc (S "mgr down")),
         fun _ _ => .ok ⟨true, some ⟨true, [], [], 0⟩, none⟩,
         fun _ => .ok ⟨true, some ⟨true, [], [], 0⟩, none⟩⟩ 3).success = false ∧
     (solve_with_boundary
        ⟨.ok ⟨true, some ⟨true, [], [], 0⟩, none⟩,
         fun _ _ => .error (.exc (S "mgr down")),
         fun _ _ => .ok ⟨true, some ⟨true, [], [], 0⟩, none⟩,
         fun _ => .ok ⟨true, some ⟨true, [], [], 0⟩, none⟩⟩ 3).error
        = some (S "工作流程异常: " ++ S "mgr down") ∧
     strContains (S "工作流程异常: " ++ S "mgr down") (S "mgr down") = true) ∧
    solve_with_boundary
        ⟨.ok ⟨true, some ⟨true, [], [], 0⟩, none⟩,
         fun _ _ => .ok ⟨S "TERMINATE_SUCCESS", [], [], []⟩,
         fun _ _ => .ok ⟨true, some ⟨true, [], [], 0⟩, none⟩,
         fun _ => .ok ⟨true, some ⟨true, [], [], 0⟩, none⟩⟩ 0
      = generate_final_result (finalize_workflow (S "TERMINATE_MAX_ITERATIONS")
          ⟨true, some ⟨true, [], [], 0⟩, none⟩ ⟨1, 0, none, none⟩) :=
  ⟨c8_orchestrator_boundary.1 (S "单轮协作异常: ") (S "boom"),
   c8_orchestrator_boundary.2.1
     ⟨.ok ⟨true, some ⟨true, [], [], 0⟩, none⟩,
      fun _ _ => .error (.exc (S "mgr down")),
      fun _ _ => .ok ⟨true, some ⟨true, [], [], 0⟩, none⟩,
      fun _ => .ok ⟨true, some ⟨true, [], [], 0⟩, none⟩⟩ 3 (S "mgr down") rfl,
   c8_orchestrator_boundary.2.2
     ⟨.ok ⟨true, some ⟨true, [], [], 0⟩, none⟩,
      fun _ _ => .ok ⟨S "TERMINATE_SUCCESS", [], [], []⟩,
      fun _ _ => .ok ⟨true, some ⟨true, [], [], 0⟩, none⟩,
      fun _ => .ok ⟨true, some ⟨true, [], [], 0⟩, none⟩⟩ 0 _ rfl⟩

end OptDisPro
